import Mathlib

/-!
# operation-monitor: the Pulsar pub/sub latency probe

A shallow embedding of `src/src/pulsar-latency.go` (with the configuration
records of `src/src/config.go` that it reads).

* The package-level map `clients` is the only program state that survives a
  call; it is passed in and returned explicitly.
* Calls into the Pulsar client library are answered by an environment record
  (`ProbeEnv`), one per invocation of `PubSubLatency`; every call and every
  close is recorded, in program order, in a list of `Effect`s.
* Deferred calls are kept on an explicit stack and run last-in-first-out when
  the function returns, as the Go language specification prescribes.
* The concurrent part (the receive goroutine, the `SendAsync` callback and the
  three-way `select` of the caller) is an interleaving semantics over a
  schedule of `Step`s supplied by the environment. Time is a clock that the
  schedule advances; a timer fires when the clock reaches its deadline.
* An exchange is followed until the caller returns. The receive goroutine is
  not cancelled by the source; what it does after the caller has returned is
  outside the embedding.
* `log` output is not an effect of interest and is left out.
* A nil-pointer dereference in the receive goroutine is a run-time panic in a
  goroutine without `recover`: it ends the process, so the invocation does not
  return (`Status.crashed`).
-/

namespace Monitor

/-! ## Time, errors, handles -/

/-- A reading of the monotonic clock, in nanoseconds. -/
abbrev Time := Nat

/-- Go `time.Duration`: a signed count of nanoseconds. -/
abbrev Duration := Int

/-- Go `time.Millisecond`. -/
def time.Millisecond : Duration := 1000000

/-- Go `time.Second`. -/
def time.Second : Duration := 1000000000

/-- Source line 15: `latencyBudget = 2400` (milliseconds). -/
def latencyBudget : Int := 2400

/-- Source line 16: `failedLatency = 100 * time.Second`. -/
def failedLatency : Duration := 100 * time.Second

/-- The outer timeout of the caller (line 153): `15 * time.Second`. -/
def outerTimeout : Duration := 15 * time.Second

/-- The inner timeout of the receive task (line 115): `5 * time.Second`. -/
def innerTimeout : Duration := 5 * time.Second

/-- A non-nil Go error value, identified with its message. -/
structure GoError where
  msg : String
  deriving DecidableEq, Repr

/-- A Go value of interface type `error`; `none` is `nil`. -/
abbrev error := Option GoError

/-- Go `errors.New`: always a non-nil error carrying the text. -/
def errors.New (text : String) : error := some ⟨text⟩

/-- The `%v` rendering of an error value inside `fmt.Sprintf`. -/
def fmtError : error → String
  | some e => e.msg
  | none => "<nil>"

/-- A `pulsar.Client` handle. -/
structure Client where
  id : Nat
  deriving DecidableEq, Repr

/-- A `pulsar.Producer` handle. -/
structure Producer where
  id : Nat
  deriving DecidableEq, Repr

/-- A `pulsar.Consumer` handle. -/
structure Consumer where
  id : Nat
  deriving DecidableEq, Repr

/-- A received `pulsar.Message`; only its payload is inspected. -/
structure Message where
  id : Nat
  payload : String
  deriving DecidableEq, Repr

/-! ## The `clients` map (line 19) -/

/-- The Go map `map[string]pulsar.Client` as an association list. -/
abbrev ClientMap := List (String × Client)

/-- Go `v, ok := m[k]`. -/
def ClientMap.get (m : ClientMap) (k : String) : Option Client :=
  match m with
  | [] => none
  | (k', v) :: rest => if k' = k then some v else ClientMap.get rest k

/-- Go `delete(m, k)`. -/
def ClientMap.delete (m : ClientMap) (k : String) : ClientMap :=
  match m with
  | [] => []
  | (k', v) :: rest =>
    if k' = k then ClientMap.delete rest k else (k', v) :: ClientMap.delete rest k

/-- Go `m[k] = v`. -/
def ClientMap.set (m : ClientMap) (k : String) (v : Client) : ClientMap :=
  (k, v) :: ClientMap.delete m k

/-! ## Configuration (`src/src/config.go`) -/

/-- The fields of `TopicCfg` (config.go lines 73-85) read by the probe. -/
structure TopicCfg where
  Name : String
  Token : String
  LatencyBudgetMs : Int
  PulsarURL : String
  TopicName : String
  deriving DecidableEq, Repr

/-- The fields of `PulsarOpsCfg` (config.go lines 66-70) read by the probe. -/
structure PulsarOpsCfg where
  MasterToken : String
  deriving DecidableEq, Repr

/-- The fields of `PulsarPerfCfg` (config.go lines 105-110). -/
structure PulsarPerfCfg where
  Token : String
  TrustStore : String
  IntervalSeconds : Int
  TopicCfgs : List TopicCfg
  deriving DecidableEq, Repr

/-- The fields of `Configuration` (config.go lines 127-139) read by the probe. -/
structure Configuration where
  PulsarOpsConfig : PulsarOpsCfg
  PulsarPerfConfig : PulsarPerfCfg
  deriving DecidableEq, Repr

/-- Modelled from the spec: `AssignString` is a helper of this repository that
is not among the source files. The spec describes its two uses as a precedence
chain (a value, else a fallback when the value is unset): the first non-empty
argument, and the empty string when there is none. -/
def AssignString : List String → String
  | [] => ""
  | v :: rest => if v ≠ "" then v else AssignString rest

/-- Modelled from the spec: `TimeDuration` is a helper of this repository that
is not among the source files. The spec: the configured threshold, falling back
to the default when unset (0), expressed in the given time unit. -/
def TimeDuration (configV defaultV : Int) (timeUnit : Duration) : Duration :=
  if configV = 0 then defaultV * timeUnit else configV * timeUnit

/-! ## `strings.Split` with a one-character separator -/

/-- Splitting a list of characters at every occurrence of `sep`. -/
def splitChars (sep : Char) : List Char → List (List Char)
  | [] => [[]]
  | c :: cs =>
    if c = sep then [] :: splitChars sep cs
    else
      match splitChars sep cs with
      | [] => [[c]]
      | piece :: pieces => (c :: piece) :: pieces

/-- Go `strings.Split(s, sep)` for a separator of one character: the pieces of
`s` between the occurrences of `sep`, one more than there are occurrences. -/
def strings.Split (s : String) (sep : Char) : List String :=
  (splitChars sep s.toList).map String.mk

/-! ## Observable effects -/

/-- The text handed to `Alert`: the two `fmt.Sprintf` call sites of
`MeasureLatency`, kept as their arguments. -/
inductive AlertText where
  /-- Line 170: "cluster %s Pulsar error: %v". -/
  | pulsarError (clusterName : String) (err : error)
  /-- Line 172: "cluster %s message latency %v over the budget %v". -/
  | overBudget (clusterName : String) (latency expectedLatency : Duration)
  deriving DecidableEq, Repr

/-- Calls that leave the probe, in the order they are made. A call that
returns a handle records it (`none` when the call failed). -/
inductive Effect where
  | NewClient (uri token trustStore : String) (res : Option Client)
  | ClientClose (c : Client)
  | CreateProducer (c : Client) (topic : String) (res : Option Producer)
  | ProducerClose (p : Producer)
  | Subscribe (c : Client) (topic subscriptionName : String) (res : Option Consumer)
  | ConsumerClose (k : Consumer)
  | SendAsync (p : Producer) (payload : String)
  | Ack (k : Consumer) (m : Message)
  | PubSubLatency (tokenStr uri topicName : String)
  | Alert (text : AlertText)
  deriving DecidableEq, Repr

/-! ## The exchange: lines 87-155 -/

/-- The three cases of the `select` of lines 148-155. -/
inductive SelectCase where
  | complete (receiverLatency : Duration)
  | failed (reportedErr : error)
  | tick
  deriving DecidableEq, Repr

/-- Lines 149-154: what the caller returns in each case of its `select`. -/
def selectReturn : SelectCase → Duration × error
  | .complete receiverLatency => (receiverLatency, none)
  | .failed reportedErr => (failedLatency, reportedErr)
  | .tick => (failedLatency, errors.New "latency measure not received after timeout")

/-- Where the receive goroutine (lines 97-125) stands. -/
inductive RecvPC where
  /-- Blocked in `consumer.Receive`, line 102. -/
  | atReceive
  /-- The payload matched, `loop` is false; waiting in the `select` of line 111
  since the given instant. -/
  | atSelect (msg : Message) (since : Time)
  /-- Blocked sending on a full channel (line 106, 113 or 118). -/
  | blockedSend
  /-- The loop ended and the goroutine returned. -/
  | exited
  deriving DecidableEq, Repr

/-- One scheduling decision of the environment. A step that is not enabled in
the current state leaves the state unchanged. -/
inductive Step where
  /-- Time passes. -/
  | advance (dt : Nat)
  /-- The pending `consumer.Receive` returns `(msg, err)`; `msg = none` is the
  nil message. -/
  | receive (msg : Option Message) (err : error)
  /-- The inner `select` takes the send time from `timeCounter`. -/
  | innerRecv
  /-- The inner `select` takes the 5 second tick, at or after its deadline and
  with `timeCounter` still empty. -/
  | innerTick
  /-- The client runtime invokes the `SendAsync` callback with `err`. -/
  | sendDone (err : error)
  /-- The caller executes lines 127-146. -/
  | mainSend
  /-- The caller enters the `select` of line 148; the flag settles the choice
  when both channels are ready. -/
  | mainSelect (preferComplete : Bool)
  deriving DecidableEq, Repr

/-- The state of one exchange. The three channels have capacity 1. -/
structure Exchange where
  clock : Time
  timeCounter : List Time
  completeChan : List Duration
  errorChan : List error
  recv : RecvPC
  /-- The `sentTime` of line 134, once the caller has executed it. -/
  sentTime : Option Time
  /-- Whether the `SendAsync` callback has been invoked. -/
  callbackRun : Bool
  /-- The instant the caller entered its `select` and armed the 15 s tick. -/
  waitStart : Option Time
  /-- What the caller returned, once its `select` has fired. -/
  result : Option (Duration × error)
  /-- The case of the caller's `select` that fired: the channel it received
  from, with the value received. -/
  taken : Option SelectCase
  /-- Every value that line 113 has sent on `completeChan`, in order. -/
  completeSent : List Duration
  /-- The receive goroutine dereferenced a nil message: the process is gone. -/
  crashed : Bool
  effects : List Effect
  deriving DecidableEq, Repr

/-- The exchange at the moment the goroutine is spawned (line 97). -/
def Exchange.init (start : Time) : Exchange :=
  { clock := start, timeCounter := [], completeChan := [], errorChan := [],
    recv := .atReceive, sentTime := none, callbackRun := false, waitStart := none,
    result := none, taken := none, completeSent := [], crashed := false, effects := [] }

/-- The caller is blocked in its `select`. -/
def Exchange.parked (s : Exchange) : Bool :=
  s.waitStart.isSome && s.result.isNone

/-- The statement `errorChan <- e`: handed to the caller when it is waiting in
its `select`, buffered when the one slot is free, and blocking (`none`)
otherwise. -/
def Exchange.sendError (s : Exchange) (e : error) : Option Exchange :=
  if s.parked then
    some { s with result := some (selectReturn (.failed e)), taken := some (.failed e) }
  else if s.errorChan = [] then some { s with errorChan := [e] }
  else none

/-- The statement `completeChan <- d`, as `sendError`. -/
def Exchange.sendComplete (s : Exchange) (d : Duration) : Option Exchange :=
  if s.parked then
    some { s with result := some (selectReturn (.complete d)), taken := some (.complete d),
                  completeSent := s.completeSent ++ [d] }
  else if s.completeChan = [] then
    some { s with completeChan := [d], completeSent := s.completeSent ++ [d] }
  else none

/-- Lines 108-122: the rest of the loop body, which reads the payload of `msg`
(the nil message when `msg = none`), compares it and acknowledges. -/
def Exchange.onMessage (payloadStr : String) (consumer : Consumer) (s : Exchange)
    (msg : Option Message) : Exchange :=
  -- line 108: `msg.Payload()`
  match msg with
  | none => { s with crashed := true }
  | some m =>
    let receivedStr := m.payload
    if payloadStr = receivedStr then
      -- lines 110-111: `loop = false`, then the inner `select`
      { s with recv := .atSelect m s.clock }
    else
      -- line 121
      { s with effects := s.effects ++ [.Ack consumer m] }

/-- Lines 103-122: the loop body after `consumer.Receive` returned `(msg, err)`,
up to the next point where the goroutine waits. The body is one step: a fault
at line 108 follows the send of line 106 at once, also when that send was
handed to the waiting caller. -/
def Exchange.onReceive (payloadStr : String) (consumer : Consumer) (s : Exchange)
    (msg : Option Message) (err : error) : Exchange :=
  -- lines 103-107: the error is published; there is no `continue` after it
  let published : Option Exchange :=
    if err ≠ none then
      s.sendError (errors.New ("consumer Receive() error: " ++ fmtError err))
    else some s
  match published with
  | none => { s with recv := .blockedSend }
  | some s1 => s1.onMessage payloadStr consumer msg

/-- Lines 112-113 and 121: the inner `select` receives `sentTime`. -/
def Exchange.onInnerRecv (consumer : Consumer) (s : Exchange) (m : Message)
    (sentTime : Time) (rest : List Time) : Exchange :=
  match ({ s with timeCounter := rest }).sendComplete ((s.clock : Int) - (sentTime : Int)) with
  | none => { s with timeCounter := rest, recv := .blockedSend }
  | some s1 => { s1 with effects := s1.effects ++ [.Ack consumer m], recv := .exited }

/-- Lines 115-118 and 121: the inner `select` times out. -/
def Exchange.onInnerTick (consumer : Consumer) (s : Exchange) (m : Message) : Exchange :=
  match s.sendError
      (errors.New "consumer received message, but timed out on producer report time") with
  | none => { s with recv := .blockedSend }
  | some s1 => { s1 with effects := s1.effects ++ [.Ack consumer m], recv := .exited }

/-- Lines 136-146: the callback of `SendAsync`. -/
def Exchange.onSendDone (s : Exchange) (sentTime : Time) (err : error) : Exchange :=
  let s0 := { s with callbackRun := true }
  let published : Option Exchange :=
    if err ≠ none then
      s0.sendError (errors.New ("fail to instantiate Pulsar client: " ++ fmtError err))
    else some s0
  match published with
  | none => s0
  | some s1 => { s1 with timeCounter := s1.timeCounter ++ [sentTime] }

/-- Line 148: the caller enters its `select`. The 15 s tick is armed; a value
already buffered is taken at once. -/
def Exchange.onMainSelect (s : Exchange) (preferComplete : Bool) : Exchange :=
  let s1 := { s with waitStart := some s.clock }
  match s.completeChan, s.errorChan with
  | [], [] => s1
  | d :: _, [] =>
    { s1 with result := some (selectReturn (.complete d)), taken := some (.complete d) }
  | [], e :: _ =>
    { s1 with result := some (selectReturn (.failed e)), taken := some (.failed e) }
  | d :: _, e :: _ =>
    let chosen : SelectCase := if preferComplete then .complete d else .failed e
    { s1 with result := some (selectReturn chosen), taken := some chosen }

/-- Time passes; the tick of line 153 fires when its deadline is reached while
the caller is still waiting. -/
def Exchange.onAdvance (s : Exchange) (dt : Nat) : Exchange :=
  let s1 := { s with clock := s.clock + dt }
  match s.waitStart with
  | none => s1
  | some waitStart =>
    if (waitStart : Int) + outerTimeout ≤ (s1.clock : Int) then
      { s1 with result := some (selectReturn .tick), taken := some .tick }
    else s1

/-- The caller has returned, or the process has crashed. -/
def Exchange.finished (s : Exchange) : Bool :=
  s.result.isSome || s.crashed

/-- One step of the exchange. Nothing is observed any more once the caller has
returned or the process has crashed. -/
def Exchange.step (payloadStr : String) (producer : Producer) (consumer : Consumer)
    (s : Exchange) (st : Step) : Exchange :=
  if s.finished then s
  else
    match st with
    | .advance dt => s.onAdvance dt
    | .receive msg err =>
      match s.recv with
      | .atReceive => s.onReceive payloadStr consumer msg err
      | _ => s
    | .innerRecv =>
      match s.recv, s.timeCounter with
      | .atSelect m _, sentTime :: rest => s.onInnerRecv consumer m sentTime rest
      | _, _ => s
    | .innerTick =>
      match s.recv, s.timeCounter with
      | .atSelect m since, [] =>
        if (since : Int) + innerTimeout ≤ (s.clock : Int) then s.onInnerTick consumer m else s
      | _, _ => s
    | .sendDone err =>
      match s.sentTime, s.callbackRun with
      | some sentTime, false => s.onSendDone sentTime err
      | _, _ => s
    | .mainSend =>
      match s.sentTime with
      | none =>
        -- lines 134-136
        { s with sentTime := some s.clock,
                 effects := s.effects ++ [.SendAsync producer payloadStr] }
      | some _ => s
    | .mainSelect preferComplete =>
      match s.sentTime, s.waitStart with
      | some _, none => s.onMainSelect preferComplete
      | _, _ => s

/-- The steps that bring the caller to the end of its `select` whatever the
schedule left undone: it sends, enters the `select`, and the tick expires. -/
def closingSteps : List Step :=
  [.mainSend, .mainSelect true, .advance outerTimeout.toNat]

/-- The exchange run over a schedule, followed by `closingSteps`. -/
def Exchange.run (payloadStr : String) (producer : Producer) (consumer : Consumer)
    (start : Time) (schedule : List Step) : Exchange :=
  (schedule ++ closingSteps).foldl (Exchange.step payloadStr producer consumer)
    (Exchange.init start)

/-- The caller leaves its `select`: with what it received, or, when it is
still waiting, with the tick. -/
def Exchange.finish (x : Exchange) : Duration × error :=
  match x.result with
  | some r => r
  | none => selectReturn .tick

/-! ## `PubSubLatency` (lines 24-156) -/

/-- What the Pulsar client library and the scheduler answer during one
invocation of `PubSubLatency`. A library call that returns `(value, err)` with
a non-nil `err` is `.error err`. -/
structure ProbeEnv where
  /-- The result of `pulsar.NewClient`, when it is called. -/
  NewClient : Except GoError Client
  /-- The result of `client.CreateProducer`, when it is called. -/
  CreateProducer : Except GoError Producer
  /-- The result of `client.Subscribe`, when it is called. -/
  Subscribe : Except GoError Consumer
  /-- The text of `time.Now().Format(time.UnixDate)` at line 95. -/
  unixDate : String
  /-- The clock when the receive goroutine is spawned. -/
  start : Time
  /-- The interleaving of the exchange. -/
  schedule : List Step

/-- A call registered with `defer`. -/
inductive Deferred where
  | ProducerClose (p : Producer)
  | ConsumerClose (k : Consumer)
  | ClientClose (c : Client)
  deriving DecidableEq, Repr

/-- The call a deferred entry makes when it runs. -/
def Deferred.call : Deferred → Effect
  | .ProducerClose p => .ProducerClose p
  | .ConsumerClose k => .ConsumerClose k
  | .ClientClose c => .ClientClose c

/-- Running the deferred calls on return. The stack has the most recently
deferred call at its head, and that call runs first. -/
def runDeferred (stack : List Deferred) : List Effect :=
  stack.map Deferred.call

/-- How an invocation of `PubSubLatency` ends. -/
inductive Status where
  | returned (latency : Duration) (err : error)
  /-- The receive goroutine faulted and took the process down. -/
  | crashed
  deriving DecidableEq, Repr

/-- An invocation of `PubSubLatency`: how it ended, the `clients` map it
leaves, and the calls it made. -/
structure Run where
  status : Status
  clients : ClientMap
  effects : List Effect
  deriving DecidableEq, Repr

/-- Lines 95-155 of `PubSubLatency`: the exchange of one invocation, over the
producer and consumer it opened. -/
def PubSubLatency.exchange (env : ProbeEnv) (producer : Producer) (consumer : Consumer) :
    Exchange :=
  -- line 95
  let payloadStr := "measure-latency123" ++ env.unixDate
  -- lines 97-155
  Exchange.run payloadStr producer consumer env.start env.schedule

/-- Lines 58-155 of `PubSubLatency`: the probe over the connection `client`. -/
def PubSubLatency.probe (env : ProbeEnv) (clients : ClientMap) (effects : List Effect)
    (client : Client) (uri topicName : String) : Run :=
  -- line 58
  match env.CreateProducer with
  | .error err =>
    -- lines 64-66
    { status := .returned failedLatency (some err),
      clients := clients.delete uri,
      effects := effects ++ [.CreateProducer client topicName none, .ClientClose client] }
  | .ok producer =>
    let effects := effects ++ [.CreateProducer client topicName (some producer)]
    -- line 69
    let deferred : List Deferred := [.ProducerClose producer]
    let subscriptionName := "latency-measure"
    -- line 72
    match env.Subscribe with
    | .error err =>
      -- line 80
      let deferred := Deferred.ClientClose client :: deferred
      -- lines 81-82
      { status := .returned failedLatency (some err),
        clients := clients.delete uri,
        effects := effects ++ [.Subscribe client topicName subscriptionName none]
                     ++ runDeferred deferred }
    | .ok consumer =>
      let effects := effects ++ [.Subscribe client topicName subscriptionName (some consumer)]
      -- line 84
      let deferred := Deferred.ConsumerClose consumer :: deferred
      -- lines 87-155
      let x := PubSubLatency.exchange env producer consumer
      if x.crashed then
        { status := .crashed, clients := clients, effects := effects ++ x.effects }
      else
        { status := .returned x.finish.1 x.finish.2,
          clients := clients,
          effects := effects ++ x.effects ++ runDeferred deferred }

/-- `PubSubLatency(tokenStr, uri, topicName)`, run on the `clients` map. -/
def PubSubLatency (cfg : Configuration) (env : ProbeEnv) (clients : ClientMap)
    (tokenStr uri topicName : String) : Run :=
  -- line 26
  match clients.get uri with
  | some client => PubSubLatency.probe env clients [] client uri topicName
  | none =>
    -- line 31
    let trustStore :=
      AssignString [cfg.PulsarPerfConfig.TrustStore, "/etc/ssl/certs/ca-bundle.crt"]
    -- line 42
    match env.NewClient with
    | .error err =>
      -- line 49
      { status := .returned failedLatency (some err),
        clients := clients,
        effects := [.NewClient uri tokenStr trustStore none] }
    | .ok client =>
      -- line 51
      PubSubLatency.probe env (clients.set uri client)
        [.NewClient uri tokenStr trustStore (some client)] client uri topicName

/-! ## `MeasureLatency` (lines 159-176) -/

/-- How a sweep, or one iteration of it, ends. -/
inductive SweepStatus where
  | returned
  /-- A receive goroutine faulted. -/
  | crashed
  /-- A run-time panic of `MeasureLatency` itself. -/
  | panicked (text : String)
  deriving DecidableEq, Repr

/-- A sweep or one of its iterations: how it ended, the `clients` map it
leaves, and the calls it made. -/
structure Sweep where
  status : SweepStatus
  clients : ClientMap
  effects : List Effect
  deriving DecidableEq, Repr

/-- Lines 162-174: the loop body for the entry `cluster`. -/
def MeasureLatency.body (cfg : Configuration) (token : String) (env : ProbeEnv)
    (clients : ClientMap) (cluster : TopicCfg) : Sweep :=
  -- line 162
  let expectedLatency := TimeDuration cluster.LatencyBudgetMs latencyBudget time.Millisecond
  -- line 164
  let run := PubSubLatency cfg env clients token cluster.PulsarURL cluster.TopicName
  let effects := Effect.PubSubLatency token cluster.PulsarURL cluster.TopicName :: run.effects
  match run.status with
  | .crashed => { status := .crashed, clients := run.clients, effects := effects }
  | .returned latency err =>
    -- line 167
    match (strings.Split cluster.PulsarURL ':')[1]? with
    | none =>
      { status := .panicked "index out of range [1] with length 1",
        clients := run.clients, effects := effects }
    | some clusterName =>
      -- lines 169-174
      if err ≠ none then
        { status := .returned, clients := run.clients,
          effects := effects ++ [.Alert (.pulsarError clusterName err)] }
      else if latency > expectedLatency then
        { status := .returned, clients := run.clients,
          effects := effects ++ [.Alert (.overBudget clusterName latency expectedLatency)] }
      else
        { status := .returned, clients := run.clients, effects := effects }

/-- Line 161: the loop over `TopicCfgs`; iteration `i` is answered by `envs i`. -/
def MeasureLatency.loop (cfg : Configuration) (token : String) (envs : Nat → ProbeEnv) :
    List TopicCfg → Nat → ClientMap → Sweep
  | [], _, clients => { status := .returned, clients := clients, effects := [] }
  | cluster :: rest, i, clients =>
    let it := MeasureLatency.body cfg token (envs i) clients cluster
    match it.status with
    | .returned =>
      let r := MeasureLatency.loop cfg token envs rest (i + 1) it.clients
      { r with effects := it.effects ++ r.effects }
    | _ => it

/-- `MeasureLatency()`, on the configuration `cfg` and the `clients` map. -/
def MeasureLatency (cfg : Configuration) (envs : Nat → ProbeEnv) (clients : ClientMap) :
    Sweep :=
  -- line 160
  let token := AssignString [cfg.PulsarPerfConfig.Token, cfg.PulsarOpsConfig.MasterToken]
  MeasureLatency.loop cfg token envs cfg.PulsarPerfConfig.TopicCfgs 0 clients

/-! ## Predicates on the exchange -/

/-- The calls an exchange makes: sends and acknowledgements. -/
def Effect.isExchange : Effect → Bool
  | .SendAsync _ _ => true
  | .Ack _ _ => true
  | _ => false

/-- What holds of every reachable state of an exchange. -/
structure Exchange.Inv (s : Exchange) : Prop where
  errNonNil : ∀ e ∈ s.errorChan, e ≠ none
  sentLe : ∀ st, s.sentTime = some st → st ≤ s.clock
  counter : ∀ t ∈ s.timeCounter, s.sentTime = some t
  complete : ∀ d ∈ s.completeChan, ∃ st now : Nat,
    s.sentTime = some st ∧ st ≤ now ∧ now ≤ s.clock ∧ d = (now : Int) - (st : Int)
  wait : ∀ ws, s.waitStart = some ws → ws ≤ s.clock ∧ ∃ st, s.sentTime = some st ∧ st ≤ ws
  waiting : ∀ ws, s.waitStart = some ws → s.result = none →
    (s.clock : Int) < (ws : Int) + outerTimeout
  result : ∀ d err, s.result = some (d, err) →
    (err = none ∧ ∃ st now ws : Nat, s.sentTime = some st ∧ s.waitStart = some ws ∧
        st ≤ now ∧ st ≤ ws ∧ (now : Int) < (ws : Int) + outerTimeout ∧
        d = (now : Int) - (st : Int))
    ∨ (err ≠ none ∧ d = failedLatency)
  effects : ∀ e ∈ s.effects, e.isExchange = true

/-- Where the result of the caller comes from, in every reachable state: the
caller has returned exactly when a case of its `select` fired, and it returned
what lines 149-154 return in that case; a value received from `completeChan` is
one that line 113 sent, a measurement `now - sentTime`; an error received from
`errorChan` is not nil. -/
structure Exchange.Provenance (s : Exchange) : Prop where
  returned : ∀ c, s.taken = some c → s.result = some (selectReturn c)
  fired : ∀ r, s.result = some r → ∃ c, s.taken = some c
  completeTaken : ∀ d, s.taken = some (.complete d) → d ∈ s.completeSent
  failedTaken : ∀ e, s.taken = some (.failed e) → e ≠ none
  buffered : ∀ d ∈ s.completeChan, d ∈ s.completeSent
  measured : ∀ d ∈ s.completeSent, ∃ st now : Nat,
    s.sentTime = some st ∧ st ≤ now ∧ now ≤ s.clock ∧ d = (now : Int) - (st : Int)

/-- The step hands the receive goroutine a nil message. -/
def Step.receivesNil : Step → Bool
  | .receive none _ => true
  | _ => false

/-- A value has been written to the completion channel: it sits in the buffer,
or the caller received it. -/
def Exchange.completionWritten (s : Exchange) : Prop :=
  s.completeChan ≠ [] ∨ ∃ d, s.result = some (selectReturn (.complete d))

/-- The receive goroutine has left its loop for the inner `select`, or a value
has been written to the completion channel. -/
def Exchange.pastMatch (s : Exchange) : Prop :=
  (∃ m since, s.recv = .atSelect m since) ∨ s.completionWritten

/-! ## Reading a list of effects -/

/-- The effects `MeasureLatency` makes itself: the calls of `PubSubLatency` and
of `Alert`. -/
def Effect.isSweep : Effect → Bool
  | .PubSubLatency _ _ _ => true
  | .Alert _ => true
  | _ => false

/-- The texts of the `Alert` calls among the effects, in order. -/
def alerts : List Effect → List AlertText
  | [] => []
  | .Alert text :: rest => text :: alerts rest
  | _ :: rest => alerts rest

/-- The arguments of the `PubSubLatency` calls among the effects, in order. -/
def probeCalls : List Effect → List (String × String × String)
  | [] => []
  | .PubSubLatency tokenStr uri topicName :: rest => (tokenStr, uri, topicName) :: probeCalls rest
  | _ :: rest => probeCalls rest

/-! ## Sample inputs -/

/-- An entry whose endpoint has the documented form, with a token of its own
and no latency budget. -/
def sampleEntry : TopicCfg :=
  { Name := "useast1", Token := "topic-token", LatencyBudgetMs := 0,
    PulsarURL := "pulsar+ssl://useast1.gcp.kafkaesque.io:6651",
    TopicName := "persistent://ops/ns/latency" }

/-- A configuration with the one entry `sampleEntry`, no token of the latency
monitor and a master token. -/
def sampleCfg : Configuration :=
  { PulsarOpsConfig := { MasterToken := "master" },
    PulsarPerfConfig :=
      { Token := "", TrustStore := "", IntervalSeconds := 60,
        TopicCfgs := [sampleEntry] } }

/-- A healthy endpoint: every call succeeds, the send is acknowledged and the
echo arrives 1.8 s after it was sent. -/
def healthyEnv : ProbeEnv :=
  { NewClient := .ok ⟨1⟩, CreateProducer := .ok ⟨2⟩, Subscribe := .ok ⟨3⟩,
    unixDate := "Mon Jan  2 15:04:05 UTC 2006", start := 0,
    schedule :=
      [.mainSend, .mainSelect true, .sendDone none, .advance 1800000000,
       .receive (some ⟨7, "measure-latency123Mon Jan  2 15:04:05 UTC 2006"⟩) none,
       .innerRecv] }

/-- An endpoint on which the subscription fails after the producer opened. -/
def subscribeFailEnv : ProbeEnv :=
  { healthyEnv with Subscribe := .error ⟨"connection error"⟩ }

/-- An endpoint that never echoes the probe message. -/
def silentEnv : ProbeEnv :=
  { healthyEnv with schedule := [.mainSend, .sendDone none, .mainSelect true] }

/-- An endpoint whose connection cannot be constructed. -/
def unreachableEnv : ProbeEnv :=
  { healthyEnv with NewClient := .error ⟨"invalid service URL"⟩ }

/-- An entry whose endpoint is a bare host name, without scheme or port. -/
def bareHostEntry : TopicCfg :=
  { Name := "local", Token := "", LatencyBudgetMs := 0, PulsarURL := "localhost",
    TopicName := "persistent://ops/ns/latency" }

/-- A configuration with a bare host name before a well-formed endpoint. -/
def bareHostCfg : Configuration :=
  { PulsarOpsConfig := { MasterToken := "master" },
    PulsarPerfConfig :=
      { Token := "perf", TrustStore := "", IntervalSeconds := 60,
        TopicCfgs :=
          [bareHostEntry,
           { Name := "useast1", Token := "", LatencyBudgetMs := 0,
             PulsarURL := "pulsar+ssl://useast1.gcp.kafkaesque.io:6651",
             TopicName := "persistent://ops/ns/latency" }] } }

/-- An endpoint whose echo is measured 15.0005 s after `sentTime`: the caller
enters its `select` 1 ms after reading `sentTime`, and the echo arrives 0.5 ms
before the tick. -/
def slowEchoEnv : ProbeEnv :=
  { healthyEnv with
    schedule :=
      [.mainSend, .sendDone none, .advance 1000000, .mainSelect true, .advance 14999500000,
       .receive (some ⟨7, "measure-latency123Mon Jan  2 15:04:05 UTC 2006"⟩) none,
       .innerRecv] }

/-- An endpoint on which `consumer.Receive` fails once the caller waits: it
returns the nil message and an error. -/
def receiveErrorEnv : ProbeEnv :=
  { healthyEnv with
    schedule := [.mainSend, .mainSelect true, .receive none (some ⟨"connection closed"⟩)] }

/-- A message left on the subscription by an earlier probe. -/
def staleMessage : Message :=
  { id := 4, payload := "measure-latency123Mon Jan  2 15:03:05 UTC 2006" }

/-- A second entry whose endpoint has the documented form. -/
def westEntry : TopicCfg :=
  { Name := "uswest2", Token := "", LatencyBudgetMs := 0,
    PulsarURL := "pulsar+ssl://uswest2.aws.kafkaesque.io:6651",
    TopicName := "persistent://ops/ns/latency" }

/-- A configuration with the two entries `sampleEntry` and `westEntry`, in
this order. -/
def twoEntryCfg : Configuration :=
  { PulsarOpsConfig := { MasterToken := "master" },
    PulsarPerfConfig :=
      { Token := "", TrustStore := "", IntervalSeconds := 60,
        TopicCfgs := [sampleEntry, westEntry] } }

/-- The endpoints of a sweep whose first probe fails, the connection cannot be
constructed, and whose later probes are healthy. -/
def firstFailsEnvs : Nat → ProbeEnv
  | 0 => unreachableEnv
  | _ => healthyEnv

/-! ## Lemmas: the `clients` map -/

theorem ClientMap.get_delete_self (m : ClientMap) (k : String) :
    ClientMap.get (ClientMap.delete m k) k = none := by
  induction m with
  | nil => rfl
  | cons kv rest ih =>
    obtain ⟨k', v⟩ := kv
    by_cases h : k' = k
    · simp [ClientMap.delete, h, ih]
    · simp [ClientMap.delete, ClientMap.get, h, ih]

theorem ClientMap.get_delete_of_ne (m : ClientMap) (k u : String) (hu : u ≠ k) :
    ClientMap.get (ClientMap.delete m k) u = ClientMap.get m u := by
  induction m with
  | nil => rfl
  | cons kv rest ih =>
    obtain ⟨k', v⟩ := kv
    by_cases h : k' = k
    · subst h
      have hne : ¬ k' = u := fun h' => hu h'.symm
      simp [ClientMap.delete, ClientMap.get, hne, ih]
    · by_cases h2 : k' = u
      · subst h2
        simp [ClientMap.delete, ClientMap.get, h]
      · simp [ClientMap.delete, ClientMap.get, h, h2, ih]

theorem ClientMap.get_set_self (m : ClientMap) (k : String) (v : Client) :
    ClientMap.get (ClientMap.set m k v) k = some v := by
  simp [ClientMap.set, ClientMap.get]

theorem ClientMap.get_set_of_ne (m : ClientMap) (k u : String) (v : Client) (hu : u ≠ k) :
    ClientMap.get (ClientMap.set m k v) u = ClientMap.get m u := by
  have h : ¬ k = u := fun h' => hu h'.symm
  simp [ClientMap.set, ClientMap.get, h, ClientMap.get_delete_of_ne m k u hu]

/-! ## Lemmas: `strings.Split` -/

theorem splitChars_ne_nil (sep : Char) (cs : List Char) : splitChars sep cs ≠ [] := by
  cases cs with
  | nil => simp [splitChars]
  | cons c cs =>
    by_cases h : c = sep
    · simp [splitChars, h]
    · simp only [splitChars, h, if_false]
      split <;> simp

theorem splitChars_of_not_mem (sep : Char) (cs : List Char) (h : sep ∉ cs) :
    splitChars sep cs = [cs] := by
  induction cs with
  | nil => rfl
  | cons c cs ih =>
    have hc : ¬ c = sep := fun e => h (by simp [e])
    have hcs : sep ∉ cs := fun e => h (by simp [e])
    simp [splitChars, hc, ih hcs]

theorem splitChars_of_mem (sep : Char) (cs : List Char) (h : sep ∈ cs) :
    ∃ a b rest, splitChars sep cs = a :: b :: rest := by
  induction cs with
  | nil => simp at h
  | cons c cs ih =>
    by_cases hc : c = sep
    · obtain ⟨x, xs, hx⟩ := List.exists_cons_of_ne_nil (splitChars_ne_nil sep cs)
      exact ⟨[], x, xs, by simp [splitChars, hc, hx]⟩
    · have hcs : sep ∈ cs := by
        rcases List.mem_cons.mp h with e | e
        · exact absurd e.symm hc
        · exact e
      obtain ⟨a, b, rest, hab⟩ := ih hcs
      exact ⟨c :: a, b, rest, by simp [splitChars, hc, hab]⟩

theorem Split_index_one_eq_none_iff (s : String) (sep : Char) :
    (strings.Split s sep)[1]? = none ↔ sep ∉ s.toList := by
  constructor
  · intro h hmem
    obtain ⟨a, b, rest, hab⟩ := splitChars_of_mem sep s.toList hmem
    rw [strings.Split, hab] at h
    simp at h
  · intro h
    rw [strings.Split, splitChars_of_not_mem sep s.toList h]
    rfl

/-! ## Lemmas: the invariant of the exchange -/

theorem Exchange.init_inv (start : Time) : (Exchange.init start).Inv := by
  constructor <;> simp [Exchange.init]

theorem Exchange.parked_iff (s : Exchange) :
    s.parked = true ↔ (∃ ws, s.waitStart = some ws) ∧ s.result = none := by
  unfold Exchange.parked
  cases s.waitStart <;> cases s.result <;> simp

theorem Exchange.Inv.sendError {s s1 : Exchange} {e : error} (hs : s.Inv) (he : e ≠ none)
    (h : s.sendError e = some s1) : s1.Inv := by
  unfold Exchange.sendError at h
  split at h
  · cases h
    refine { hs with waiting := ?_, result := ?_ }
    · intro ws _ hres
      simp at hres
    · intro d err hres
      simp [selectReturn] at hres
      right
      exact ⟨hres.2 ▸ he, hres.1.symm⟩
  · split at h
    · cases h
      refine { hs with errNonNil := ?_ }
      intro e' he'
      simp at he'
      exact he' ▸ he
    · cases h

theorem Exchange.Inv.sendComplete {s s1 : Exchange} {d : Duration} (hs : s.Inv)
    (hd : ∃ st : Nat, s.sentTime = some st ∧ d = (s.clock : Int) - (st : Int))
    (h : s.sendComplete d = some s1) : s1.Inv := by
  obtain ⟨st, hst, hdv⟩ := hd
  have hle := hs.sentLe st hst
  unfold Exchange.sendComplete at h
  split at h
  · rename_i hp
    obtain ⟨⟨ws, hws⟩, hres⟩ := (Exchange.parked_iff s).mp hp
    cases h
    refine { hs with waiting := ?_, result := ?_ }
    · intro ws _ hres
      simp at hres
    · intro d' err hr
      simp [selectReturn] at hr
      left
      refine ⟨hr.2.symm, st, s.clock, ws, hst, hws, hle, ?_, hs.waiting ws hws hres, ?_⟩
      · obtain ⟨_, st', hst', hle'⟩ := hs.wait ws hws
        rw [hst] at hst'
        cases hst'
        exact hle'
      · rw [← hr.1, hdv]
  · split at h
    · cases h
      refine { hs with complete := ?_ }
      intro d' hd'
      simp at hd'
      exact ⟨st, s.clock, hst, hle, le_refl _, hd' ▸ hdv⟩
    · cases h

theorem Exchange.Inv.onMessage {s : Exchange} (hs : s.Inv) (payloadStr : String)
    (consumer : Consumer) (msg : Option Message) :
    (s.onMessage payloadStr consumer msg).Inv := by
  unfold Exchange.onMessage
  cases msg with
  | none => exact { hs with }
  | some m =>
    simp only
    split
    · exact { hs with }
    · refine { hs with effects := ?_ }
      intro e he
      rcases List.mem_append.mp he with he | he
      · exact hs.effects e he
      · simp at he
        subst he
        rfl

theorem Exchange.Inv.onReceive {s : Exchange} (hs : s.Inv) (payloadStr : String)
    (consumer : Consumer) (msg : Option Message) (err : error) :
    (s.onReceive payloadStr consumer msg err).Inv := by
  unfold Exchange.onReceive
  by_cases herr : err ≠ none
  · rw [if_pos herr]
    cases hsend : s.sendError (errors.New ("consumer Receive() error: " ++ fmtError err)) with
    | none => exact { hs with }
    | some s1 =>
      exact (hs.sendError (by simp [errors.New]) hsend).onMessage payloadStr consumer msg
  · rw [if_neg herr]
    exact hs.onMessage payloadStr consumer msg

theorem Exchange.Inv.onInnerRecv {s : Exchange} (hs : s.Inv) (consumer : Consumer)
    (m : Message) (sentTime : Time) (rest : List Time)
    (htc : s.timeCounter = sentTime :: rest) :
    (s.onInnerRecv consumer m sentTime rest).Inv := by
  unfold Exchange.onInnerRecv
  have h0 : ({ s with timeCounter := rest } : Exchange).Inv := by
    refine { hs with counter := ?_ }
    intro t ht
    exact hs.counter t (by rw [htc]; exact List.mem_cons_of_mem _ ht)
  have hst : s.sentTime = some sentTime := hs.counter sentTime (by rw [htc]; simp)
  cases hsend : ({ s with timeCounter := rest } : Exchange).sendComplete
      ((s.clock : Int) - (sentTime : Int)) with
  | none => exact { h0 with }
  | some s1 =>
    have h1 : s1.Inv := h0.sendComplete ⟨sentTime, hst, rfl⟩ hsend
    refine { h1 with effects := ?_ }
    intro e he
    rcases List.mem_append.mp he with he | he
    · exact h1.effects e he
    · simp at he
      subst he
      rfl

theorem Exchange.Inv.onInnerTick {s : Exchange} (hs : s.Inv) (consumer : Consumer)
    (m : Message) : (s.onInnerTick consumer m).Inv := by
  unfold Exchange.onInnerTick
  cases hsend : s.sendError
      (errors.New "consumer received message, but timed out on producer report time") with
  | none => exact { hs with }
  | some s1 =>
    have h1 : s1.Inv := hs.sendError (by simp [errors.New]) hsend
    refine { h1 with effects := ?_ }
    intro e he
    rcases List.mem_append.mp he with he | he
    · exact h1.effects e he
    · simp at he
      subst he
      rfl

theorem Exchange.Inv.onSendDone {s : Exchange} (hs : s.Inv) (sentTime : Time) (err : error)
    (hst : s.sentTime = some sentTime) : (s.onSendDone sentTime err).Inv := by
  unfold Exchange.onSendDone
  have h0 : ({ s with callbackRun := true } : Exchange).Inv := { hs with }
  have key : ∀ s1 : Exchange, s1.Inv → s1.sentTime = some sentTime →
      ({ s1 with timeCounter := s1.timeCounter ++ [sentTime] } : Exchange).Inv := by
    intro s1 h1 hs1
    refine { h1 with counter := ?_ }
    intro t ht
    rcases List.mem_append.mp ht with ht | ht
    · exact h1.counter t ht
    · simp at ht
      subst ht
      exact hs1
  have frame : ∀ (e : error) (s1 : Exchange),
      ({ s with callbackRun := true } : Exchange).sendError e = some s1 →
      s1.sentTime = some sentTime := by
    intro e s1 h
    unfold Exchange.sendError at h
    split at h
    · cases h
      exact hst
    · split at h
      · cases h
        exact hst
      · cases h
  simp only
  by_cases herr : err ≠ none
  · rw [if_pos herr]
    cases hsend : ({ s with callbackRun := true } : Exchange).sendError
        (errors.New ("fail to instantiate Pulsar client: " ++ fmtError err)) with
    | none => exact h0
    | some s1 => exact key s1 (h0.sendError (by simp [errors.New]) hsend) (frame _ s1 hsend)
  · rw [if_neg herr]
    exact key _ h0 hst

theorem Exchange.Inv.onMainSelect {s : Exchange} (hs : s.Inv) (preferComplete : Bool)
    (st : Time) (hst : s.sentTime = some st) (hres : s.result = none) :
    (s.onMainSelect preferComplete).Inv := by
  have hle := hs.sentLe st hst
  have hwait : ∀ ws, some s.clock = some ws → ws ≤ s.clock ∧ ∃ st, s.sentTime = some st ∧ st ≤ ws := by
    intro ws h
    cases h
    exact ⟨le_refl _, st, hst, hle⟩
  have hwaiting : ∀ ws, some s.clock = some ws → (s.clock : Int) < (ws : Int) + outerTimeout := by
    intro ws h
    cases h
    simp [outerTimeout, time.Second]
  have hcomplete : ∀ d ∈ s.completeChan, ∀ d' err, (d, (none : error)) = (d', err) →
      (err = none ∧ ∃ st now ws : Nat, s.sentTime = some st ∧ some s.clock = some ws ∧
        st ≤ now ∧ st ≤ ws ∧ (now : Int) < (ws : Int) + outerTimeout ∧
        d' = (now : Int) - (st : Int))
      ∨ (err ≠ none ∧ d' = failedLatency) := by
    intro d hd d' err h
    cases h
    obtain ⟨st', now, hst', h1, h2, h3⟩ := hs.complete d hd
    rw [hst] at hst'
    cases hst'
    left
    refine ⟨rfl, st, now, s.clock, hst, rfl, h1, hle, ?_, h3⟩
    have : (now : Int) ≤ (s.clock : Int) := by exact_mod_cast h2
    simp only [outerTimeout, time.Second]
    omega
  have herror : ∀ e ∈ s.errorChan, ∀ d' err, (failedLatency, e) = (d', err) →
      (err = none ∧ ∃ st now ws : Nat, s.sentTime = some st ∧ some s.clock = some ws ∧
        st ≤ now ∧ st ≤ ws ∧ (now : Int) < (ws : Int) + outerTimeout ∧
        d' = (now : Int) - (st : Int))
      ∨ (err ≠ none ∧ d' = failedLatency) := by
    intro e he d' err h
    cases h
    right
    exact ⟨hs.errNonNil e he, rfl⟩
  unfold Exchange.onMainSelect
  simp only
  split
  · refine { hs with wait := hwait, waiting := ?_, result := ?_ }
    · intro ws h _
      exact hwaiting ws h
    · intro d err h
      simp [hres] at h
  · rename_i d _ hc _
    refine { hs with wait := hwait, waiting := ?_, result := ?_ }
    · intro ws _ h
      simp at h
    · intro d' err h
      simp only [selectReturn, Option.some.injEq] at h
      exact hcomplete d (by rw [hc]; simp) d' err h
  · rename_i e _ _ he
    refine { hs with wait := hwait, waiting := ?_, result := ?_ }
    · intro ws _ h
      simp at h
    · intro d' err h
      simp only [selectReturn, Option.some.injEq] at h
      exact herror e (by rw [he]; simp) d' err h
  · rename_i d _ e _ hc he
    refine { hs with wait := hwait, waiting := ?_, result := ?_ }
    · intro ws _ h
      simp at h
    · intro d' err h
      cases preferComplete
      · simp only [selectReturn, Option.some.injEq, Bool.false_eq_true, if_false] at h
        exact herror e (by rw [he]; simp) d' err h
      · simp only [selectReturn, Option.some.injEq, if_true] at h
        exact hcomplete d (by rw [hc]; simp) d' err h

theorem Exchange.Inv.onAdvance {s : Exchange} (hs : s.Inv) (dt : Nat) :
    (s.onAdvance dt).Inv := by
  have hsent : ∀ st, s.sentTime = some st → st ≤ s.clock + dt := fun st h =>
    Nat.le_trans (hs.sentLe st h) (Nat.le_add_right _ _)
  have hcomp : ∀ d ∈ s.completeChan, ∃ st now : Nat,
      s.sentTime = some st ∧ st ≤ now ∧ now ≤ s.clock + dt ∧ d = (now : Int) - (st : Int) := by
    intro d hd
    obtain ⟨st, now, h1, h2, h3, h4⟩ := hs.complete d hd
    exact ⟨st, now, h1, h2, Nat.le_trans h3 (Nat.le_add_right _ _), h4⟩
  have hwait : ∀ ws, s.waitStart = some ws →
      ws ≤ s.clock + dt ∧ ∃ st, s.sentTime = some st ∧ st ≤ ws := by
    intro ws h
    obtain ⟨h1, h2⟩ := hs.wait ws h
    exact ⟨Nat.le_trans h1 (Nat.le_add_right _ _), h2⟩
  unfold Exchange.onAdvance
  simp only
  split
  · rename_i hw
    refine { hs with sentLe := hsent, complete := hcomp, wait := hwait, waiting := ?_ }
    intro ws h
    rw [hw] at h
    cases h
  · rename_i waitStart hw
    split
    · refine { hs with sentLe := hsent, complete := hcomp, wait := hwait,
                       waiting := ?_, result := ?_ }
      · intro ws _ h
        simp at h
      · intro d err h
        simp only [selectReturn, Option.some.injEq, Prod.mk.injEq] at h
        right
        refine ⟨?_, h.1.symm⟩
        rw [← h.2]
        simp [errors.New]
    · rename_i hlt
      refine { hs with sentLe := hsent, complete := hcomp, wait := hwait, waiting := ?_ }
      intro ws h _
      rw [hw] at h
      cases h
      exact lt_of_not_le hlt

theorem Exchange.Inv.step {s : Exchange} (hs : s.Inv) (payloadStr : String)
    (producer : Producer) (consumer : Consumer) (st : Step) :
    (s.step payloadStr producer consumer st).Inv := by
  unfold Exchange.step
  split
  · exact hs
  · rename_i hfin
    have hres : s.result = none := by
      cases h : s.result with
      | none => rfl
      | some r => simp [Exchange.finished, h] at hfin
    cases st with
    | advance dt => exact hs.onAdvance dt
    | receive msg err =>
      simp only
      split
      · exact hs.onReceive payloadStr consumer msg err
      · exact hs
    | innerRecv =>
      simp only
      split
      · rename_i m _ sentTime rest _ htc
        exact hs.onInnerRecv consumer m sentTime rest htc
      · exact hs
    | innerTick =>
      simp only
      split
      · split
        · exact hs.onInnerTick consumer _
        · exact hs
      · exact hs
    | sendDone err =>
      simp only
      split
      · rename_i sentTime hst _
        exact hs.onSendDone sentTime err hst
      · exact hs
    | mainSend =>
      simp only
      split
      · refine { hs with sentLe := ?_, counter := ?_, complete := ?_, wait := ?_,
                         result := ?_, effects := ?_ }
        · intro st h
          cases h
          exact le_refl _
        · intro t ht
          rename_i hnone
          have := hs.counter t ht
          rw [hnone] at this
          cases this
        · intro d hd
          rename_i hnone
          obtain ⟨st, _, h1, _⟩ := hs.complete d hd
          rw [hnone] at h1
          cases h1
        · intro ws h
          rename_i hnone
          obtain ⟨_, st, h1, _⟩ := hs.wait ws h
          rw [hnone] at h1
          cases h1
        · intro d err h
          rw [hres] at h
          cases h
        · intro e he
          rcases List.mem_append.mp he with he | he
          · exact hs.effects e he
          · simp at he
            subst he
            rfl
      · exact hs
    | mainSelect preferComplete =>
      simp only
      split
      · rename_i st hst _
        exact hs.onMainSelect preferComplete st hst hres
      · exact hs

theorem Exchange.Inv.foldl {s : Exchange} (hs : s.Inv) (payloadStr : String)
    (producer : Producer) (consumer : Consumer) (steps : List Step) :
    (steps.foldl (Exchange.step payloadStr producer consumer) s).Inv := by
  induction steps generalizing s with
  | nil => exact hs
  | cons st rest ih => exact ih (hs.step payloadStr producer consumer st)

theorem Exchange.run_inv (payloadStr : String) (producer : Producer) (consumer : Consumer)
    (start : Time) (schedule : List Step) :
    (Exchange.run payloadStr producer consumer start schedule).Inv :=
  (Exchange.init_inv start).foldl payloadStr producer consumer _

/-! ## Lemmas: every exchange ends -/

theorem Exchange.step_of_finished {s : Exchange} (h : s.finished = true) (payloadStr : String)
    (producer : Producer) (consumer : Consumer) (st : Step) :
    s.step payloadStr producer consumer st = s := by
  unfold Exchange.step
  rw [if_pos h]

theorem Exchange.foldl_of_finished {s : Exchange} (h : s.finished = true) (payloadStr : String)
    (producer : Producer) (consumer : Consumer) (steps : List Step) :
    steps.foldl (Exchange.step payloadStr producer consumer) s = s := by
  induction steps with
  | nil => rfl
  | cons st rest ih =>
    rw [List.foldl_cons, Exchange.step_of_finished h, ih]

theorem Exchange.mainSend_sent (s : Exchange) (payloadStr : String)
    (producer : Producer) (consumer : Consumer) (h : s.finished = false) :
    (s.step payloadStr producer consumer .mainSend).finished = false ∧
    ∃ st, (s.step payloadStr producer consumer .mainSend).sentTime = some st := by
  unfold Exchange.step
  rw [if_neg (by simp [h])]
  simp only
  split
  · exact ⟨h, _, rfl⟩
  · rename_i st hst
    exact ⟨h, st, hst⟩

theorem Exchange.mainSelect_armed (s : Exchange) (payloadStr : String)
    (producer : Producer) (consumer : Consumer) (h : s.finished = false)
    (hsent : ∃ st, s.sentTime = some st) :
    (s.step payloadStr producer consumer (.mainSelect true)).finished = true ∨
    ∃ ws, (s.step payloadStr producer consumer (.mainSelect true)).waitStart = some ws := by
  obtain ⟨st, hst⟩ := hsent
  unfold Exchange.step
  rw [if_neg (by simp [h])]
  simp only
  cases hw : s.waitStart with
  | none =>
    right
    simp only [hst]
    unfold Exchange.onMainSelect
    simp only
    split <;> exact ⟨_, rfl⟩
  | some ws =>
    right
    simp only [hst]
    exact ⟨ws, hw⟩

theorem Exchange.advance_expires (s : Exchange) (hs : s.Inv) (payloadStr : String)
    (producer : Producer) (consumer : Consumer) (h : s.finished = false)
    (hw : ∃ ws, s.waitStart = some ws) :
    (s.step payloadStr producer consumer (.advance outerTimeout.toNat)).finished = true := by
  obtain ⟨ws, hws⟩ := hw
  have hle := (hs.wait ws hws).1
  unfold Exchange.step
  rw [if_neg (by simp [h])]
  simp only
  unfold Exchange.onAdvance
  simp only [hws]
  have hcond : (ws : Int) + outerTimeout ≤ ((s.clock + outerTimeout.toNat : Nat) : Int) := by
    simp only [outerTimeout, time.Second]
    have : (ws : Int) ≤ (s.clock : Int) := by exact_mod_cast hle
    push_cast
    omega
  rw [if_pos hcond]
  simp [Exchange.finished]

/-- Every exchange ends: after the schedule and the closing steps the caller
has returned or the process has crashed. -/
theorem Exchange.run_finished (payloadStr : String) (producer : Producer) (consumer : Consumer)
    (start : Time) (schedule : List Step) :
    (Exchange.run payloadStr producer consumer start schedule).finished = true := by
  unfold Exchange.run
  rw [List.foldl_append]
  generalize hs0 : schedule.foldl (Exchange.step payloadStr producer consumer)
    (Exchange.init start) = s
  have hs : s.Inv := hs0 ▸ (Exchange.init_inv start).foldl payloadStr producer consumer schedule
  by_cases hfin : s.finished = true
  · rw [Exchange.foldl_of_finished hfin]
    exact hfin
  · have hfin : s.finished = false := by simpa using hfin
    simp only [closingSteps, List.foldl_cons, List.foldl_nil]
    obtain ⟨h1, hsent⟩ := s.mainSend_sent payloadStr producer consumer hfin
    have hs1 := hs.step payloadStr producer consumer .mainSend
    generalize s.step payloadStr producer consumer .mainSend = s1 at h1 hsent hs1
    have hs2 := hs1.step payloadStr producer consumer (.mainSelect true)
    rcases s1.mainSelect_armed payloadStr producer consumer h1 hsent with h2 | h2
    · rw [Exchange.step_of_finished h2]
      exact h2
    · generalize s1.step payloadStr producer consumer (.mainSelect true) = s2 at h2 hs2
      by_cases hfin2 : s2.finished = true
      · rw [Exchange.step_of_finished hfin2]
        exact hfin2
      · exact s2.advance_expires hs2 payloadStr producer consumer (by simpa using hfin2) h2

/-! ## Lemmas: when the receive goroutine faults -/

theorem Exchange.sendError_crashed {s s1 : Exchange} {e : error}
    (h : s.sendError e = some s1) : s1.crashed = s.crashed := by
  unfold Exchange.sendError at h
  split at h
  · cases h
    rfl
  · split at h
    · cases h
      rfl
    · cases h

theorem Exchange.sendComplete_crashed {s s1 : Exchange} {d : Duration}
    (h : s.sendComplete d = some s1) : s1.crashed = s.crashed := by
  unfold Exchange.sendComplete at h
  split at h
  · cases h
    rfl
  · split at h
    · cases h
      rfl
    · cases h

theorem Exchange.step_crashed (payloadStr : String) (producer : Producer) (consumer : Consumer)
    (s : Exchange) (st : Step) (hst : st.receivesNil = false) (hs : s.crashed = false) :
    (s.step payloadStr producer consumer st).crashed = false := by
  unfold Exchange.step
  split
  · exact hs
  · cases st with
    | advance dt =>
      simp only [Exchange.onAdvance]
      split
      · exact hs
      · split <;> exact hs
    | receive msg err =>
      simp only
      split
      · cases msg with
        | none => simp [Step.receivesNil] at hst
        | some m =>
          unfold Exchange.onReceive
          simp only
          split
          · exact hs
          · rename_i s1 hpub
            have h1 : s1.crashed = false := by
              split at hpub
              · rw [Exchange.sendError_crashed hpub]
                exact hs
              · cases hpub
                exact hs
            simp only [Exchange.onMessage]
            split <;> exact h1
      · exact hs
    | innerRecv =>
      simp only
      split
      · unfold Exchange.onInnerRecv
        split
        · exact hs
        · rename_i s1 hsend
          have h1 := Exchange.sendComplete_crashed hsend
          simp only at h1
          simp only
          rw [h1]
          exact hs
      · exact hs
    | innerTick =>
      simp only
      split
      · split
        · unfold Exchange.onInnerTick
          split
          · exact hs
          · rename_i s1 hsend
            simp only
            rw [Exchange.sendError_crashed hsend]
            exact hs
        · exact hs
      · exact hs
    | sendDone err =>
      simp only
      split
      · unfold Exchange.onSendDone
        simp only
        split
        · exact hs
        · rename_i s1 hpub
          simp only
          split at hpub
          · rw [Exchange.sendError_crashed hpub]
            exact hs
          · cases hpub
            exact hs
      · exact hs
    | mainSend =>
      simp only
      split <;> exact hs
    | mainSelect preferComplete =>
      simp only
      split
      · unfold Exchange.onMainSelect
        simp only
        split <;> exact hs
      · exact hs

theorem Exchange.foldl_crashed (payloadStr : String) (producer : Producer)
    (consumer : Consumer) (steps : List Step) (s : Exchange)
    (hsteps : ∀ st ∈ steps, st.receivesNil = false) (hs : s.crashed = false) :
    (steps.foldl (Exchange.step payloadStr producer consumer) s).crashed = false := by
  induction steps generalizing s with
  | nil => exact hs
  | cons st rest ih =>
    exact ih _ (fun st' h' => hsteps st' (by simp [h']))
      (Exchange.step_crashed payloadStr producer consumer s st (hsteps st (by simp)) hs)

/-- No fault without a nil message: an exchange whose schedule never hands the
receive goroutine a nil message does not crash. -/
theorem PubSubLatency.exchange_not_crashed (env : ProbeEnv) (producer : Producer)
    (consumer : Consumer) (h : ∀ st ∈ env.schedule, st.receivesNil = false) :
    (PubSubLatency.exchange env producer consumer).crashed = false := by
  unfold PubSubLatency.exchange Exchange.run
  apply Exchange.foldl_crashed
  · intro st hst
    rcases List.mem_append.mp hst with hst | hst
    · exact h st hst
    · simp only [closingSteps, List.mem_cons, List.mem_singleton, List.not_mem_nil,
        or_false] at hst
      rcases hst with hst | hst | hst <;> subst hst <;> rfl
  · rfl

/-! ## Lemmas: the runs of `PubSubLatency` -/

theorem PubSubLatency.exchange_inv (env : ProbeEnv) (producer : Producer)
    (consumer : Consumer) : (PubSubLatency.exchange env producer consumer).Inv :=
  Exchange.run_inv _ _ _ _ _

theorem PubSubLatency.exchange_finished (env : ProbeEnv) (producer : Producer)
    (consumer : Consumer) : (PubSubLatency.exchange env producer consumer).finished = true :=
  Exchange.run_finished _ _ _ _ _

theorem PubSubLatency.exchange_effects (env : ProbeEnv) (producer : Producer)
    (consumer : Consumer) (e : Effect)
    (he : e ∈ (PubSubLatency.exchange env producer consumer).effects) :
    e.isExchange = true :=
  (PubSubLatency.exchange_inv env producer consumer).effects e he

theorem Exchange.finish_shape (x : Exchange) (hx : x.Inv) (d : Duration) (err : error)
    (h : x.finish = (d, err)) :
    (err = none ∧ x.result = some (selectReturn (.complete d)) ∧
      ∃ st now ws : Nat, x.sentTime = some st ∧ x.waitStart = some ws ∧ st ≤ now ∧ st ≤ ws ∧
        (now : Int) < (ws : Int) + outerTimeout ∧ d = (now : Int) - (st : Int))
    ∨ (err ≠ none ∧ d = failedLatency) := by
  unfold Exchange.finish at h
  cases hr : x.result with
  | none =>
    rw [hr] at h
    simp only [selectReturn, Prod.mk.injEq] at h
    right
    refine ⟨?_, h.1.symm⟩
    rw [← h.2]
    simp [errors.New]
  | some r =>
    rw [hr] at h
    simp only at h
    subst h
    rcases hx.result d err hr with ⟨h1, h2⟩ | h2
    · subst h1
      exact Or.inl ⟨rfl, rfl, h2⟩
    · exact Or.inr h2

theorem PubSubLatency.probe_setup_failure (env : ProbeEnv) (cl : ClientMap)
    (eff : List Effect) (client : Client) (uri topicName : String)
    (hfail : (∃ e, env.CreateProducer = .error e) ∨ (∃ e, env.Subscribe = .error e)) :
    (∃ e, (PubSubLatency.probe env cl eff client uri topicName).status
        = .returned failedLatency (some e)) ∧
    (PubSubLatency.probe env cl eff client uri topicName).clients = cl.delete uri := by
  unfold PubSubLatency.probe
  cases hprod : env.CreateProducer with
  | error e => exact ⟨⟨e, rfl⟩, rfl⟩
  | ok producer =>
    cases hsub : env.Subscribe with
    | error e => exact ⟨⟨e, rfl⟩, rfl⟩
    | ok consumer =>
      rcases hfail with ⟨e, he⟩ | ⟨e, he⟩
      · rw [hprod] at he
        cases he
      · rw [hsub] at he
        cases he

theorem PubSubLatency.setup_failure_clients (cfg : Configuration) (env : ProbeEnv)
    (clients : ClientMap) (tokenStr uri topicName : String)
    (hfail : (clients.get uri = none ∧ ∃ e, env.NewClient = .error e) ∨
      (∃ e, env.CreateProducer = .error e) ∨ (∃ e, env.Subscribe = .error e)) :
    (∃ e, (PubSubLatency cfg env clients tokenStr uri topicName).status
        = .returned failedLatency (some e)) ∧
    (PubSubLatency cfg env clients tokenStr uri topicName).clients.get uri = none ∧
    ∀ u, u ≠ uri →
      (PubSubLatency cfg env clients tokenStr uri topicName).clients.get u = clients.get u := by
  unfold PubSubLatency
  cases hget : clients.get uri with
  | some client =>
    have hf : (∃ e, env.CreateProducer = .error e) ∨ (∃ e, env.Subscribe = .error e) := by
      rcases hfail with ⟨h, _⟩ | h
      · rw [hget] at h
        cases h
      · exact h
    obtain ⟨h1, h2⟩ := PubSubLatency.probe_setup_failure env clients [] client uri topicName hf
    simp only
    refine ⟨h1, ?_, ?_⟩
    · rw [h2]
      exact ClientMap.get_delete_self clients uri
    · intro u hu
      rw [h2]
      exact ClientMap.get_delete_of_ne clients uri u hu
  | none =>
    cases hnew : env.NewClient with
    | error e =>
      exact ⟨⟨e, rfl⟩, hget, fun u _ => rfl⟩
    | ok client =>
      have hf : (∃ e, env.CreateProducer = .error e) ∨ (∃ e, env.Subscribe = .error e) := by
        rcases hfail with ⟨_, e, h⟩ | h
        · rw [hnew] at h
          cases h
        · exact h
      obtain ⟨h1, h2⟩ := PubSubLatency.probe_setup_failure env (clients.set uri client)
        [.NewClient uri tokenStr
          (AssignString [cfg.PulsarPerfConfig.TrustStore, "/etc/ssl/certs/ca-bundle.crt"])
          (some client)] client uri topicName hf
      simp only
      refine ⟨h1, ?_, ?_⟩
      · rw [h2]
        exact ClientMap.get_delete_self _ uri
      · intro u hu
        rw [h2, ClientMap.get_delete_of_ne _ uri u hu]
        exact ClientMap.get_set_of_ne clients uri u client hu

theorem PubSubLatency.calls_NewClient_of_miss (cfg : Configuration) (env : ProbeEnv)
    (clients : ClientMap) (tokenStr uri topicName : String) (hmiss : clients.get uri = none) :
    ∃ res, (PubSubLatency cfg env clients tokenStr uri topicName).effects.head?
      = some (.NewClient uri tokenStr
          (AssignString [cfg.PulsarPerfConfig.TrustStore, "/etc/ssl/certs/ca-bundle.crt"])
          res) := by
  unfold PubSubLatency
  rw [hmiss]
  cases hnew : env.NewClient with
  | error e => exact ⟨none, rfl⟩
  | ok client =>
    refine ⟨some client, ?_⟩
    simp only
    unfold PubSubLatency.probe
    cases env.CreateProducer with
    | error e => rfl
    | ok producer =>
      cases env.Subscribe with
      | error e => rfl
      | ok consumer =>
        simp only
        split <;> rfl

theorem PubSubLatency.probe_session_opened (env : ProbeEnv) (cl : ClientMap)
    (eff : List Effect) (client : Client) (uri topicName : String)
    (producer : Producer) (consumer : Consumer)
    (hp : env.CreateProducer = .ok producer) (hk : env.Subscribe = .ok consumer) :
    (PubSubLatency.probe env cl eff client uri topicName).clients = cl ∧
    (PubSubLatency.probe env cl eff client uri topicName).effects =
      eff ++ [.CreateProducer client topicName (some producer),
              .Subscribe client topicName "latency-measure" (some consumer)]
          ++ (PubSubLatency.exchange env producer consumer).effects
          ++ (if (PubSubLatency.exchange env producer consumer).crashed then []
              else [.ConsumerClose consumer, .ProducerClose producer]) := by
  unfold PubSubLatency.probe
  rw [hp, hk]
  simp only
  split <;> simp [runDeferred, Deferred.call]

theorem PubSubLatency.returns_of_no_fault (cfg : Configuration) (env : ProbeEnv)
    (clients : ClientMap) (tokenStr uri topicName : String)
    (hrecv : ∀ producer consumer, (PubSubLatency.exchange env producer consumer).crashed = false) :
    ∃ latency err,
      (PubSubLatency cfg env clients tokenStr uri topicName).status = .returned latency err := by
  have probe : ∀ (cl : ClientMap) (eff : List Effect) (client : Client),
      ∃ latency err,
        (PubSubLatency.probe env cl eff client uri topicName).status
          = .returned latency err := by
    intro cl eff client
    unfold PubSubLatency.probe
    cases hprod : env.CreateProducer with
    | error e => exact ⟨_, _, rfl⟩
    | ok producer =>
      cases hsub : env.Subscribe with
      | error e => exact ⟨_, _, rfl⟩
      | ok consumer =>
        simp only [hrecv producer consumer, Bool.false_eq_true, if_false]
        exact ⟨_, _, rfl⟩
  unfold PubSubLatency
  cases hget : clients.get uri with
  | some client => exact probe _ _ _
  | none =>
    cases hnew : env.NewClient with
    | error e => exact ⟨_, _, rfl⟩
    | ok client => exact probe _ _ _

/-! ## Lemmas: the sweep -/

theorem alerts_append (a b : List Effect) : alerts (a ++ b) = alerts a ++ alerts b := by
  induction a with
  | nil => rfl
  | cons e rest ih => cases e <;> simp [alerts, ih]

theorem probeCalls_append (a b : List Effect) :
    probeCalls (a ++ b) = probeCalls a ++ probeCalls b := by
  induction a with
  | nil => rfl
  | cons e rest ih => cases e <;> simp [probeCalls, ih]

theorem alerts_of_not_sweep (l : List Effect) (h : ∀ e ∈ l, e.isSweep = false) :
    alerts l = [] := by
  induction l with
  | nil => rfl
  | cons e rest ih =>
    have he := h e (by simp)
    have hrest := ih (fun e' he' => h e' (by simp [he']))
    cases e <;> simp_all [alerts, Effect.isSweep]

theorem probeCalls_of_not_sweep (l : List Effect) (h : ∀ e ∈ l, e.isSweep = false) :
    probeCalls l = [] := by
  induction l with
  | nil => rfl
  | cons e rest ih =>
    have he := h e (by simp)
    have hrest := ih (fun e' he' => h e' (by simp [he']))
    cases e <;> simp_all [probeCalls, Effect.isSweep]

theorem Effect.not_sweep_of_exchange (e : Effect) (h : e.isExchange = true) :
    e.isSweep = false := by
  cases e <;> simp_all [Effect.isExchange, Effect.isSweep]

theorem PubSubLatency.probe_effects_not_sweep (env : ProbeEnv) (cl : ClientMap)
    (eff : List Effect) (client : Client) (uri topicName : String)
    (heff : ∀ e ∈ eff, e.isSweep = false) :
    ∀ e ∈ (PubSubLatency.probe env cl eff client uri topicName).effects, e.isSweep = false := by
  unfold PubSubLatency.probe
  cases hprod : env.CreateProducer with
  | error err =>
    intro e he
    simp only [List.mem_append, List.mem_cons, List.mem_singleton, List.not_mem_nil,
      or_false] at he
    rcases he with he | he | he
    · exact heff e he
    · subst he; rfl
    · subst he; rfl
  | ok producer =>
    cases hsub : env.Subscribe with
    | error err =>
      intro e he
      simp only [runDeferred, Deferred.call, List.map_cons, List.map_nil, List.mem_append,
        List.mem_cons, List.mem_singleton, List.not_mem_nil, or_false] at he
      rcases he with ((he | he) | he) | he | he
      · exact heff e he
      · subst he; rfl
      · subst he; rfl
      · subst he; rfl
      · subst he; rfl
    | ok consumer =>
      have hx := PubSubLatency.exchange_effects env producer consumer
      simp only
      split
      · intro e he
        simp only [List.mem_append, List.mem_cons, List.mem_singleton, List.not_mem_nil,
          or_false] at he
        rcases he with ((he | he) | he) | he
        · exact heff e he
        · subst he; rfl
        · subst he; rfl
        · exact Effect.not_sweep_of_exchange e (hx e he)
      · intro e he
        simp only [runDeferred, Deferred.call, List.map_cons, List.map_nil, List.mem_append,
          List.mem_cons, List.mem_singleton, List.not_mem_nil, or_false] at he
        rcases he with (((he | he) | he) | he) | he | he
        · exact heff e he
        · subst he; rfl
        · subst he; rfl
        · exact Effect.not_sweep_of_exchange e (hx e he)
        · subst he; rfl
        · subst he; rfl

theorem PubSubLatency.effects_not_sweep (cfg : Configuration) (env : ProbeEnv)
    (clients : ClientMap) (tokenStr uri topicName : String) :
    ∀ e ∈ (PubSubLatency cfg env clients tokenStr uri topicName).effects,
      e.isSweep = false := by
  unfold PubSubLatency
  cases hget : clients.get uri with
  | some client =>
    exact PubSubLatency.probe_effects_not_sweep env clients [] client uri topicName (by simp)
  | none =>
    cases hnew : env.NewClient with
    | error err =>
      intro e he
      simp only [List.mem_singleton] at he
      subst he
      rfl
    | ok client =>
      apply PubSubLatency.probe_effects_not_sweep
      intro e he
      simp only [List.mem_singleton] at he
      subst he
      rfl

theorem MeasureLatency.body_probeCalls (cfg : Configuration) (token : String) (env : ProbeEnv)
    (clients : ClientMap) (cluster : TopicCfg) :
    probeCalls (MeasureLatency.body cfg token env clients cluster).effects
      = [(token, cluster.PulsarURL, cluster.TopicName)] := by
  have hinner := probeCalls_of_not_sweep _
    (PubSubLatency.effects_not_sweep cfg env clients token cluster.PulsarURL cluster.TopicName)
  have hcons : ∀ l : List Effect,
      probeCalls (Effect.PubSubLatency token cluster.PulsarURL cluster.TopicName :: l)
        = (token, cluster.PulsarURL, cluster.TopicName) :: probeCalls l := fun _ => rfl
  unfold MeasureLatency.body
  simp only
  split
  · simp only [hcons, hinner]
  · split
    · simp only [hcons, hinner]
    · split
      · simp only [hcons, probeCalls_append, hinner]
        rfl
      · split
        · simp only [hcons, probeCalls_append, hinner]
          rfl
        · simp only [hcons, hinner]

theorem MeasureLatency.loop_probeCalls_token (cfg : Configuration) (token : String)
    (envs : Nat → ProbeEnv) (cfgs : List TopicCfg) (i : Nat) (clients : ClientMap) :
    ∀ call ∈ probeCalls (MeasureLatency.loop cfg token envs cfgs i clients).effects,
      call.1 = token := by
  induction cfgs generalizing i clients with
  | nil =>
    intro call h
    simp [MeasureLatency.loop, probeCalls] at h
  | cons cluster rest ih =>
    intro call h
    have hb := MeasureLatency.body_probeCalls cfg token (envs i) clients cluster
    unfold MeasureLatency.loop at h
    simp only at h
    split at h
    · simp only [probeCalls_append, hb, List.mem_append, List.mem_singleton] at h
      rcases h with h | h
      · rw [h]
      · exact ih _ _ call h
    · rw [hb] at h
      simp only [List.mem_singleton] at h
      rw [h]

theorem MeasureLatency.body_returns (cfg : Configuration) (token : String) (env : ProbeEnv)
    (clients : ClientMap) (cluster : TopicCfg)
    (hurl : ':' ∈ cluster.PulsarURL.toList)
    (hrecv : ∀ producer consumer, (PubSubLatency.exchange env producer consumer).crashed = false) :
    (MeasureLatency.body cfg token env clients cluster).status = .returned := by
  obtain ⟨latency, err, hrun⟩ := PubSubLatency.returns_of_no_fault cfg env clients token
    cluster.PulsarURL cluster.TopicName hrecv
  cases hname : (strings.Split cluster.PulsarURL ':')[1]? with
  | none => exact absurd hurl ((Split_index_one_eq_none_iff _ _).mp hname)
  | some clusterName =>
    unfold MeasureLatency.body
    simp only [hrun, hname]
    split
    · rfl
    · split <;> rfl

theorem MeasureLatency.loop_probes_all (cfg : Configuration) (token : String)
    (envs : Nat → ProbeEnv) (cfgs : List TopicCfg) (i : Nat) (clients : ClientMap)
    (hurl : ∀ c ∈ cfgs, ':' ∈ c.PulsarURL.toList)
    (hrecv : ∀ j producer consumer,
      (PubSubLatency.exchange (envs j) producer consumer).crashed = false) :
    (MeasureLatency.loop cfg token envs cfgs i clients).status = .returned ∧
    probeCalls (MeasureLatency.loop cfg token envs cfgs i clients).effects
      = cfgs.map (fun c => (token, c.PulsarURL, c.TopicName)) := by
  induction cfgs generalizing i clients with
  | nil => exact ⟨rfl, rfl⟩
  | cons cluster rest ih =>
    have hb := MeasureLatency.body_returns cfg token (envs i) clients cluster
      (hurl cluster (by simp)) (hrecv i)
    have hp := MeasureLatency.body_probeCalls cfg token (envs i) clients cluster
    obtain ⟨h1, h2⟩ := ih (i + 1) (MeasureLatency.body cfg token (envs i) clients cluster).clients
      (fun c hc => hurl c (by simp [hc]))
    unfold MeasureLatency.loop
    simp only [hb]
    refine ⟨h1, ?_⟩
    rw [probeCalls_append, hp, h2]
    rfl

theorem MeasureLatency.body_not_panicked (cfg : Configuration) (token : String)
    (env : ProbeEnv) (clients : ClientMap) (cluster : TopicCfg)
    (hurl : ':' ∈ cluster.PulsarURL.toList) (text : String) :
    (MeasureLatency.body cfg token env clients cluster).status ≠ .panicked text := by
  cases hname : (strings.Split cluster.PulsarURL ':')[1]? with
  | none => exact absurd hurl ((Split_index_one_eq_none_iff _ _).mp hname)
  | some clusterName =>
    unfold MeasureLatency.body
    simp only [hname]
    split
    · simp
    · split
      · simp
      · split <;> simp

theorem MeasureLatency.loop_not_panicked (cfg : Configuration) (token : String)
    (envs : Nat → ProbeEnv) (cfgs : List TopicCfg) (i : Nat) (clients : ClientMap)
    (hurl : ∀ c ∈ cfgs, ':' ∈ c.PulsarURL.toList) (text : String) :
    (MeasureLatency.loop cfg token envs cfgs i clients).status ≠ .panicked text := by
  induction cfgs generalizing i clients with
  | nil => simp [MeasureLatency.loop]
  | cons cluster rest ih =>
    have hb := MeasureLatency.body_not_panicked cfg token (envs i) clients cluster
      (hurl cluster (by simp)) text
    unfold MeasureLatency.loop
    simp only
    split
    · exact ih (i + 1) _ (fun c hc => hurl c (by simp [hc]))
    · exact hb

theorem MeasureLatency.body_alerts (cfg : Configuration) (token : String) (env : ProbeEnv)
    (clients : ClientMap) (cluster : TopicCfg) (L : Duration) (err : error)
    (hurl : ':' ∈ cluster.PulsarURL.toList)
    (hrun : (PubSubLatency cfg env clients token cluster.PulsarURL cluster.TopicName).status
      = .returned L err) :
    ∃ clusterName, (strings.Split cluster.PulsarURL ':')[1]? = some clusterName ∧
      alerts (MeasureLatency.body cfg token env clients cluster).effects =
        if err ≠ none then [AlertText.pulsarError clusterName err]
        else if L > TimeDuration cluster.LatencyBudgetMs latencyBudget time.Millisecond then
          [AlertText.overBudget clusterName L
            (TimeDuration cluster.LatencyBudgetMs latencyBudget time.Millisecond)]
        else [] := by
  have hinner := alerts_of_not_sweep _
    (PubSubLatency.effects_not_sweep cfg env clients token cluster.PulsarURL cluster.TopicName)
  have hcons : ∀ l : List Effect,
      alerts (Effect.PubSubLatency token cluster.PulsarURL cluster.TopicName :: l)
        = alerts l := fun _ => rfl
  cases hname : (strings.Split cluster.PulsarURL ':')[1]? with
  | none => exact absurd hurl ((Split_index_one_eq_none_iff _ _).mp hname)
  | some clusterName =>
    refine ⟨clusterName, rfl, ?_⟩
    unfold MeasureLatency.body
    simp only [hrun, hname]
    by_cases herr : err ≠ none
    · simp only [if_pos herr]
      rw [alerts_append, hcons, hinner]
      rfl
    · simp only [if_neg herr]
      by_cases hlat : L > TimeDuration cluster.LatencyBudgetMs latencyBudget time.Millisecond
      · simp only [if_pos hlat]
        rw [alerts_append, hcons, hinner]
        rfl
      · simp only [if_neg hlat]
        rw [hcons, hinner]

theorem MeasureLatency.loop_cons_returned (cfg : Configuration) (token : String)
    (envs : Nat → ProbeEnv) (c : TopicCfg) (rest : List TopicCfg) (i : Nat)
    (clients : ClientMap)
    (hb : (MeasureLatency.body cfg token (envs i) clients c).status = .returned) :
    MeasureLatency.loop cfg token envs (c :: rest) i clients
      = { MeasureLatency.loop cfg token envs rest (i + 1)
            (MeasureLatency.body cfg token (envs i) clients c).clients with
          effects := (MeasureLatency.body cfg token (envs i) clients c).effects ++
            (MeasureLatency.loop cfg token envs rest (i + 1)
              (MeasureLatency.body cfg token (envs i) clients c).clients).effects } := by
  rw [MeasureLatency.loop]
  simp only [hb]

theorem MeasureLatency.loop_iteration (cfg : Configuration) (token : String)
    (envs : Nat → ProbeEnv) (front : List TopicCfg) (cluster : TopicCfg)
    (back : List TopicCfg) (i : Nat) (clients : ClientMap)
    (hurl : ∀ c ∈ front ++ cluster :: back, ':' ∈ c.PulsarURL.toList)
    (hrecv : ∀ j producer consumer,
      (PubSubLatency.exchange (envs j) producer consumer).crashed = false) :
    (MeasureLatency.loop cfg token envs (front ++ cluster :: back) i clients).effects
      = (MeasureLatency.loop cfg token envs front i clients).effects
        ++ (MeasureLatency.body cfg token (envs (i + front.length))
            (MeasureLatency.loop cfg token envs front i clients).clients cluster).effects
        ++ (MeasureLatency.loop cfg token envs back (i + front.length + 1)
            (MeasureLatency.body cfg token (envs (i + front.length))
              (MeasureLatency.loop cfg token envs front i clients).clients
              cluster).clients).effects := by
  induction front generalizing i clients with
  | nil =>
    have hb := MeasureLatency.body_returns cfg token (envs i) clients cluster
      (hurl cluster (by simp)) (hrecv i)
    simp only [List.nil_append, List.length_nil, Nat.add_zero]
    rw [MeasureLatency.loop_cons_returned cfg token envs cluster back i clients hb]
    simp [MeasureLatency.loop]
  | cons c rest ih =>
    have hb := MeasureLatency.body_returns cfg token (envs i) clients c
      (hurl c (by simp)) (hrecv i)
    have hidx : i + (c :: rest).length = i + 1 + rest.length := by
      simp only [List.length_cons]
      omega
    rw [hidx, List.cons_append,
      MeasureLatency.loop_cons_returned cfg token envs c _ i clients hb,
      MeasureLatency.loop_cons_returned cfg token envs c rest i clients hb]
    simp only
    rw [ih (i + 1) (MeasureLatency.body cfg token (envs i) clients c).clients
      (fun c' hc' => hurl c' (by simp at hc' ⊢; exact Or.inr hc'))]
    simp only [List.append_assoc]

theorem firstFailsEnvs_receives_no_nil (j : Nat) :
    ∀ st ∈ (firstFailsEnvs j).schedule, st.receivesNil = false := by
  cases j with
  | zero => decide
  | succ n =>
    show ∀ st ∈ healthyEnv.schedule, st.receivesNil = false
    decide

/-! ## Lemmas: the completion channel -/

theorem Exchange.sendError_frame {s s1 : Exchange} {e : error} (he : e ≠ none)
    (h : s.sendError e = some s1) :
    s1.recv = s.recv ∧ s1.completeChan = s.completeChan ∧ s1.clock = s.clock ∧
    (∀ d, s1.result = some (d, none) → s.result = some (d, none)) := by
  unfold Exchange.sendError at h
  split at h
  · cases h
    refine ⟨rfl, rfl, rfl, ?_⟩
    intro d hd
    simp only [selectReturn, Option.some.injEq, Prod.mk.injEq] at hd
    exact absurd hd.2 he
  · split at h
    · cases h
      exact ⟨rfl, rfl, rfl, fun _ hd => hd⟩
    · cases h

theorem Exchange.pastMatch_of_frame {s s1 : Exchange} (h : s1.pastMatch)
    (hrecv : s1.recv = s.recv) (hchan : s1.completeChan = s.completeChan)
    (hres : ∀ d, s1.result = some (d, none) → s.result = some (d, none)) :
    s.pastMatch := by
  rcases h with ⟨m, since, h⟩ | h | ⟨d, h⟩
  · exact Or.inl ⟨m, since, hrecv ▸ h⟩
  · exact Or.inr (Or.inl (hchan ▸ h))
  · exact Or.inr (Or.inr ⟨d, hres d h⟩)

theorem Exchange.pastMatch_step (payloadStr : String) (producer : Producer)
    (consumer : Consumer) (s : Exchange) (hs : s.Inv) (st : Step)
    (h : (s.step payloadStr producer consumer st).pastMatch) :
    s.pastMatch ∨
    (s.finished = false ∧ s.recv = .atReceive ∧
      ∃ m err, st = .receive (some m) err ∧ m.payload = payloadStr) := by
  unfold Exchange.step at h
  split at h
  · exact Or.inl h
  · rename_i hfin
    have hfin : s.finished = false := by simpa using hfin
    cases st with
    | advance dt =>
      left
      simp only [Exchange.onAdvance] at h
      split at h
      · exact Exchange.pastMatch_of_frame h rfl rfl (fun _ hd => hd)
      · split at h
        · refine Exchange.pastMatch_of_frame h rfl rfl ?_
          intro d hd
          simp [selectReturn, errors.New] at hd
        · exact Exchange.pastMatch_of_frame h rfl rfl (fun _ hd => hd)
    | receive msg err =>
      simp only at h
      split at h
      · rename_i hat
        unfold Exchange.onReceive at h
        simp only at h
        split at h
        · rcases h with ⟨m, since, h⟩ | h | ⟨d, h⟩
          · simp at h
          · exact Or.inl (Or.inr (Or.inl h))
          · exact Or.inl (Or.inr (Or.inr ⟨d, h⟩))
        · rename_i s1 hpub
          have hframe : s1.recv = s.recv ∧ s1.completeChan = s.completeChan ∧
              s1.clock = s.clock ∧
              (∀ d, s1.result = some (d, none) → s.result = some (d, none)) := by
            split at hpub
            · exact Exchange.sendError_frame (by simp [errors.New]) hpub
            · cases hpub
              exact ⟨rfl, rfl, rfl, fun _ hd => hd⟩
          obtain ⟨h1, h2, _, h4⟩ := hframe
          cases msg with
          | none =>
            left
            simp only [Exchange.onMessage] at h
            exact Exchange.pastMatch_of_frame h h1 h2 h4
          | some m =>
            simp only [Exchange.onMessage] at h
            split at h
            · rename_i heq
              exact Or.inr ⟨hfin, hat, m, err, rfl, heq.symm⟩
            · left
              exact Exchange.pastMatch_of_frame h h1 h2 h4
      · exact Or.inl h
    | innerRecv =>
      simp only at h
      split at h
      · rename_i m since _ _ hat _
        exact Or.inl (Or.inl ⟨m, since, hat⟩)
      · exact Or.inl h
    | innerTick =>
      simp only at h
      split at h
      · rename_i m since hat _
        exact Or.inl (Or.inl ⟨m, since, hat⟩)
      · exact Or.inl h
    | sendDone err =>
      left
      simp only at h
      split at h
      · unfold Exchange.onSendDone at h
        simp only at h
        split at h
        · exact Exchange.pastMatch_of_frame h rfl rfl (fun _ hd => hd)
        · rename_i s1 hpub
          have hframe : s1.recv = s.recv ∧ s1.completeChan = s.completeChan ∧
              (∀ d, s1.result = some (d, none) → s.result = some (d, none)) := by
            split at hpub
            · obtain ⟨a, b, _, c⟩ := Exchange.sendError_frame (by simp [errors.New]) hpub
              exact ⟨a, b, c⟩
            · cases hpub
              exact ⟨rfl, rfl, fun _ hd => hd⟩
          exact Exchange.pastMatch_of_frame h hframe.1 hframe.2.1 hframe.2.2
      · exact h
    | mainSend =>
      left
      simp only at h
      split at h
      · exact Exchange.pastMatch_of_frame h rfl rfl (fun _ hd => hd)
      · exact h
    | mainSelect preferComplete =>
      left
      simp only at h
      split at h
      · unfold Exchange.onMainSelect at h
        simp only at h
        split at h
        · exact Exchange.pastMatch_of_frame h rfl rfl (fun _ hd => hd)
        · rename_i d _ hc _
          exact Or.inr (Or.inl (by rw [hc]; simp))
        · rename_i e _ _ he
          refine Exchange.pastMatch_of_frame h rfl rfl ?_
          intro d hd
          simp only [selectReturn, Option.some.injEq, Prod.mk.injEq] at hd
          exact absurd hd.2 (hs.errNonNil e (by rw [he]; simp))
        · rename_i d _ e _ hc he
          exact Or.inr (Or.inl (by rw [hc]; simp))
      · exact h

theorem Exchange.init_not_pastMatch (start : Time) : ¬ (Exchange.init start).pastMatch := by
  intro h
  rcases h with ⟨m, since, h⟩ | h | ⟨d, h⟩
  · simp [Exchange.init] at h
  · simp [Exchange.init] at h
  · simp [Exchange.init] at h

theorem Exchange.pastMatch_foldl (payloadStr : String) (producer : Producer)
    (consumer : Consumer) (start : Time) (steps : List Step)
    (h : (steps.foldl (Exchange.step payloadStr producer consumer)
      (Exchange.init start)).pastMatch) :
    ∃ before m err after,
      steps = before ++ Step.receive (some m) err :: after ∧ m.payload = payloadStr ∧
      (before.foldl (Exchange.step payloadStr producer consumer)
        (Exchange.init start)).recv = .atReceive ∧
      (before.foldl (Exchange.step payloadStr producer consumer)
        (Exchange.init start)).finished = false := by
  induction steps using List.reverseRecOn with
  | nil => exact absurd h (Exchange.init_not_pastMatch start)
  | append_singleton front st ih =>
    rw [List.foldl_append, List.foldl_cons, List.foldl_nil] at h
    have hinv := (Exchange.init_inv start).foldl payloadStr producer consumer front
    rcases Exchange.pastMatch_step payloadStr producer consumer _ hinv st h with
      hprev | ⟨hfin, hat, m, err, hst, hm⟩
    · obtain ⟨before, m, err, after, h1, h2, h3, h4⟩ := ih hprev
      exact ⟨before, m, err, after ++ [st], by rw [h1]; simp, h2, h3, h4⟩
    · exact ⟨front, m, err, [], by rw [hst], hm, hat, hfin⟩

theorem PubSubLatency.completed_of_nil_error (cfg : Configuration) (env : ProbeEnv)
    (clients : ClientMap) (tokenStr uri topicName : String) (d : Duration)
    (h : (PubSubLatency cfg env clients tokenStr uri topicName).status = .returned d none) :
    ∃ producer consumer,
      (PubSubLatency.exchange env producer consumer).result = some (d, none) := by
  have probe : ∀ (cl : ClientMap) (eff : List Effect) (client : Client),
      (PubSubLatency.probe env cl eff client uri topicName).status = .returned d none →
      ∃ producer consumer,
        (PubSubLatency.exchange env producer consumer).result = some (d, none) := by
    intro cl eff client hp
    unfold PubSubLatency.probe at hp
    cases hprod : env.CreateProducer with
    | error e =>
      rw [hprod] at hp
      simp at hp
    | ok producer =>
      rw [hprod] at hp
      cases hsub : env.Subscribe with
      | error e =>
        rw [hsub] at hp
        simp at hp
      | ok consumer =>
        rw [hsub] at hp
        simp only at hp
        split at hp
        · cases hp
        · simp only [Status.returned.injEq] at hp
          have hfin : (PubSubLatency.exchange env producer consumer).finish = (d, none) :=
            Prod.ext hp.1 hp.2
          rcases Exchange.finish_shape _ (PubSubLatency.exchange_inv env producer consumer)
              d none hfin with ⟨_, h2, _⟩ | ⟨h1, _⟩
          · exact ⟨producer, consumer, h2⟩
          · exact absurd rfl h1
  unfold PubSubLatency at h
  cases hget : clients.get uri with
  | some client =>
    rw [hget] at h
    exact probe _ _ _ h
  | none =>
    rw [hget] at h
    cases hnew : env.NewClient with
    | error e =>
      rw [hnew] at h
      simp at h
    | ok client =>
      rw [hnew] at h
      exact probe _ _ _ h

theorem PubSubLatency.match_received_of_nil_error (cfg : Configuration) (env : ProbeEnv)
    (clients : ClientMap) (tokenStr uri topicName : String) (d : Duration)
    (h : (PubSubLatency cfg env clients tokenStr uri topicName).status = .returned d none) :
    ∃ m err, Step.receive (some m) err ∈ env.schedule ∧
      m.payload = "measure-latency123" ++ env.unixDate := by
  obtain ⟨producer, consumer, hres⟩ :=
    PubSubLatency.completed_of_nil_error cfg env clients tokenStr uri topicName d h
  have hpast : (PubSubLatency.exchange env producer consumer).pastMatch :=
    Or.inr (Or.inr ⟨d, hres⟩)
  unfold PubSubLatency.exchange Exchange.run at hpast
  obtain ⟨before, m, err, after, h1, h2, _, _⟩ :=
    Exchange.pastMatch_foldl _ producer consumer env.start _ hpast
  refine ⟨m, err, ?_, h2⟩
  have hmem : Step.receive (some m) err ∈ env.schedule ++ closingSteps := by
    rw [h1]
    simp
  rcases List.mem_append.mp hmem with hmem | hmem
  · exact hmem
  · simp [closingSteps] at hmem

/-! ## Lemmas: where the result of the caller comes from -/

theorem Exchange.init_provenance (start : Time) : (Exchange.init start).Provenance := by
  constructor <;> simp [Exchange.init]

theorem Exchange.Provenance.of_frame {s s1 : Exchange} (hs : s.Provenance)
    (hres : s1.result = s.result) (htaken : s1.taken = s.taken)
    (hsent : s1.completeSent = s.completeSent) (hchan : s1.completeChan = s.completeChan)
    (htime : s1.sentTime = s.sentTime) (hclock : s.clock ≤ s1.clock) : s1.Provenance := by
  refine ⟨?_, ?_, ?_, ?_, ?_, ?_⟩
  · intro c h
    rw [hres]
    exact hs.returned c (htaken ▸ h)
  · intro r h
    rw [htaken]
    exact hs.fired r (hres ▸ h)
  · intro d h
    rw [hsent]
    exact hs.completeTaken d (htaken ▸ h)
  · intro e h
    exact hs.failedTaken e (htaken ▸ h)
  · intro d h
    rw [hsent]
    exact hs.buffered d (hchan ▸ h)
  · intro d h
    obtain ⟨st, now, h1, h2, h3, h4⟩ := hs.measured d (hsent ▸ h)
    exact ⟨st, now, htime ▸ h1, h2, Nat.le_trans h3 hclock, h4⟩

theorem Exchange.Provenance.taken_none {s : Exchange} (hs : s.Provenance)
    (hres : s.result = none) : s.taken = none := by
  cases h : s.taken with
  | none => rfl
  | some c =>
    have := hs.returned c h
    rw [hres] at this
    cases this

theorem Exchange.Provenance.after_sendError {s s1 : Exchange} {e : error} (hs : s.Provenance)
    (he : e ≠ none) (h : s.sendError e = some s1) : s1.Provenance := by
  unfold Exchange.sendError at h
  split at h
  · cases h
    refine { hs with returned := ?_, fired := ?_, completeTaken := ?_, failedTaken := ?_ }
    · intro c hc
      simp only [Option.some.injEq] at hc
      rw [← hc]
    · intro r _
      exact ⟨_, rfl⟩
    · intro d hd
      simp at hd
    · intro e' he'
      simp only [Option.some.injEq, SelectCase.failed.injEq] at he'
      exact he' ▸ he
  · split at h
    · cases h
      exact hs.of_frame rfl rfl rfl rfl rfl (le_refl _)
    · cases h

theorem Exchange.Provenance.after_sendComplete {s s1 : Exchange} {d : Duration}
    (hs : s.Provenance)
    (hd : ∃ st : Nat, s.sentTime = some st ∧ st ≤ s.clock ∧ d = (s.clock : Int) - (st : Int))
    (h : s.sendComplete d = some s1) : s1.Provenance := by
  obtain ⟨st, hst, hle, hdv⟩ := hd
  have hmeasured : ∀ d' ∈ s.completeSent ++ [d], ∃ st now : Nat,
      s.sentTime = some st ∧ st ≤ now ∧ now ≤ s.clock ∧ d' = (now : Int) - (st : Int) := by
    intro d' hd'
    rcases List.mem_append.mp hd' with hd' | hd'
    · exact hs.measured d' hd'
    · simp only [List.mem_singleton] at hd'
      exact ⟨st, s.clock, hst, hle, le_refl _, hd' ▸ hdv⟩
  unfold Exchange.sendComplete at h
  split at h
  · cases h
    refine ⟨?_, ?_, ?_, ?_, ?_, hmeasured⟩
    · intro c hc
      simp only [Option.some.injEq] at hc
      rw [← hc]
    · intro r _
      exact ⟨_, rfl⟩
    · intro d' hd'
      simp only [Option.some.injEq, SelectCase.complete.injEq] at hd'
      simp [hd']
    · intro e he
      simp at he
    · intro d' hd'
      exact List.mem_append_left _ (hs.buffered d' hd')
  · split at h
    · cases h
      refine ⟨hs.returned, hs.fired, ?_, hs.failedTaken, ?_, hmeasured⟩
      · intro d' hd'
        exact List.mem_append_left _ (hs.completeTaken d' hd')
      · intro d' hd'
        simp only [List.mem_singleton] at hd'
        simp [hd']
    · cases h

theorem Exchange.Provenance.after_onMessage {s : Exchange} (hs : s.Provenance)
    (payloadStr : String) (consumer : Consumer) (msg : Option Message) :
    (s.onMessage payloadStr consumer msg).Provenance := by
  unfold Exchange.onMessage
  cases msg with
  | none => exact hs.of_frame rfl rfl rfl rfl rfl (le_refl _)
  | some m =>
    simp only
    split
    · exact hs.of_frame rfl rfl rfl rfl rfl (le_refl _)
    · exact hs.of_frame rfl rfl rfl rfl rfl (le_refl _)

theorem Exchange.Provenance.after_onReceive {s : Exchange} (hs : s.Provenance)
    (payloadStr : String) (consumer : Consumer) (msg : Option Message) (err : error) :
    (s.onReceive payloadStr consumer msg err).Provenance := by
  unfold Exchange.onReceive
  by_cases herr : err ≠ none
  · rw [if_pos herr]
    cases hsend : s.sendError (errors.New ("consumer Receive() error: " ++ fmtError err)) with
    | none => exact hs.of_frame rfl rfl rfl rfl rfl (le_refl _)
    | some s1 =>
      exact (hs.after_sendError (by simp [errors.New]) hsend).after_onMessage payloadStr consumer msg
  · rw [if_neg herr]
    exact hs.after_onMessage payloadStr consumer msg

theorem Exchange.Provenance.after_onInnerRecv {s : Exchange} (hs : s.Provenance) (hinv : s.Inv)
    (consumer : Consumer) (m : Message) (sentTime : Time) (rest : List Time)
    (htc : s.timeCounter = sentTime :: rest) :
    (s.onInnerRecv consumer m sentTime rest).Provenance := by
  unfold Exchange.onInnerRecv
  have h0 : ({ s with timeCounter := rest } : Exchange).Provenance :=
    hs.of_frame rfl rfl rfl rfl rfl (le_refl _)
  have hst : s.sentTime = some sentTime := hinv.counter sentTime (by rw [htc]; simp)
  have hle := hinv.sentLe sentTime hst
  cases hsend : ({ s with timeCounter := rest } : Exchange).sendComplete
      ((s.clock : Int) - (sentTime : Int)) with
  | none => exact h0.of_frame rfl rfl rfl rfl rfl (le_refl _)
  | some s1 =>
    have h1 : s1.Provenance := h0.after_sendComplete ⟨sentTime, hst, hle, rfl⟩ hsend
    exact h1.of_frame rfl rfl rfl rfl rfl (le_refl _)

theorem Exchange.Provenance.after_onInnerTick {s : Exchange} (hs : s.Provenance)
    (consumer : Consumer) (m : Message) : (s.onInnerTick consumer m).Provenance := by
  unfold Exchange.onInnerTick
  cases hsend : s.sendError
      (errors.New "consumer received message, but timed out on producer report time") with
  | none => exact hs.of_frame rfl rfl rfl rfl rfl (le_refl _)
  | some s1 =>
    have h1 : s1.Provenance := hs.after_sendError (by simp [errors.New]) hsend
    exact h1.of_frame rfl rfl rfl rfl rfl (le_refl _)

theorem Exchange.Provenance.after_onSendDone {s : Exchange} (hs : s.Provenance)
    (sentTime : Time) (err : error) : (s.onSendDone sentTime err).Provenance := by
  unfold Exchange.onSendDone
  have h0 : ({ s with callbackRun := true } : Exchange).Provenance :=
    hs.of_frame rfl rfl rfl rfl rfl (le_refl _)
  simp only
  by_cases herr : err ≠ none
  · rw [if_pos herr]
    cases hsend : ({ s with callbackRun := true } : Exchange).sendError
        (errors.New ("fail to instantiate Pulsar client: " ++ fmtError err)) with
    | none => exact h0
    | some s1 =>
      have h1 : s1.Provenance := h0.after_sendError (by simp [errors.New]) hsend
      exact h1.of_frame rfl rfl rfl rfl rfl (le_refl _)
  · rw [if_neg herr]
    exact h0.of_frame rfl rfl rfl rfl rfl (le_refl _)

theorem Exchange.Provenance.after_onMainSelect {s : Exchange} (hs : s.Provenance) (hinv : s.Inv)
    (preferComplete : Bool) :
    (s.onMainSelect preferComplete).Provenance := by
  have hfire : ∀ c : SelectCase,
      (∀ d, c = .complete d → d ∈ s.completeChan) →
      (∀ e, c = .failed e → e ∈ s.errorChan) →
      ({ s with waitStart := some s.clock, result := some (selectReturn c),
                taken := some c } : Exchange).Provenance := by
    intro c hc he
    refine ⟨?_, ?_, ?_, ?_, hs.buffered, hs.measured⟩
    · intro c' h
      simp only [Option.some.injEq] at h
      rw [← h]
    · intro r _
      exact ⟨c, rfl⟩
    · intro d h
      simp only [Option.some.injEq] at h
      exact hs.buffered d (hc d h)
    · intro e h
      simp only [Option.some.injEq] at h
      exact hinv.errNonNil e (he e h)
  unfold Exchange.onMainSelect
  simp only
  split
  · exact hs.of_frame rfl rfl rfl rfl rfl (le_refl _)
  · rename_i d _ hc _
    exact hfire (.complete d) (by intro d' h; cases h; rw [hc]; simp) (by intro e h; cases h)
  · rename_i e _ _ he
    exact hfire (.failed e) (by intro d' h; cases h) (by intro e' h; cases h; rw [he]; simp)
  · rename_i d _ e _ hc he
    cases preferComplete
    · exact hfire (.failed e) (by intro d' h; cases h)
        (by intro e' h; cases h; rw [he]; simp)
    · exact hfire (.complete d) (by intro d' h; cases h; rw [hc]; simp)
        (by intro e h; cases h)

theorem Exchange.Provenance.after_onAdvance {s : Exchange} (hs : s.Provenance) (dt : Nat) :
    (s.onAdvance dt).Provenance := by
  have h0 : ({ s with clock := s.clock + dt } : Exchange).Provenance :=
    hs.of_frame rfl rfl rfl rfl rfl (Nat.le_add_right _ _)
  unfold Exchange.onAdvance
  simp only
  split
  · exact h0
  · split
    · refine ⟨?_, ?_, ?_, ?_, h0.buffered, h0.measured⟩
      · intro c h
        simp only [Option.some.injEq] at h
        rw [← h]
      · intro r _
        exact ⟨_, rfl⟩
      · intro d h
        simp at h
      · intro e h
        simp at h
    · exact h0

theorem Exchange.Provenance.after_step {s : Exchange} (hs : s.Provenance) (hinv : s.Inv)
    (payloadStr : String) (producer : Producer) (consumer : Consumer) (st : Step) :
    (s.step payloadStr producer consumer st).Provenance := by
  unfold Exchange.step
  split
  · exact hs
  · cases st with
    | advance dt => exact hs.after_onAdvance dt
    | receive msg err =>
      simp only
      split
      · exact hs.after_onReceive payloadStr consumer msg err
      · exact hs
    | innerRecv =>
      simp only
      split
      · rename_i m _ sentTime rest _ htc
        exact hs.after_onInnerRecv hinv consumer m sentTime rest htc
      · exact hs
    | innerTick =>
      simp only
      split
      · split
        · exact hs.after_onInnerTick consumer _
        · exact hs
      · exact hs
    | sendDone err =>
      simp only
      split
      · exact hs.after_onSendDone _ err
      · exact hs
    | mainSend =>
      simp only
      split
      · rename_i hnone
        refine ⟨hs.returned, hs.fired, hs.completeTaken, hs.failedTaken, hs.buffered, ?_⟩
        intro d hd
        obtain ⟨st, _, h1, _⟩ := hs.measured d hd
        rw [hnone] at h1
        cases h1
      · exact hs
    | mainSelect preferComplete =>
      simp only
      split
      · exact hs.after_onMainSelect hinv preferComplete
      · exact hs

theorem Exchange.provenance_foldl {s : Exchange} (hs : s.Provenance) (hinv : s.Inv)
    (payloadStr : String) (producer : Producer) (consumer : Consumer) (steps : List Step) :
    (steps.foldl (Exchange.step payloadStr producer consumer) s).Provenance := by
  induction steps generalizing s with
  | nil => exact hs
  | cons st rest ih =>
    exact ih (hs.after_step hinv payloadStr producer consumer st)
      (hinv.step payloadStr producer consumer st)

theorem PubSubLatency.exchange_provenance (env : ProbeEnv) (producer : Producer)
    (consumer : Consumer) : (PubSubLatency.exchange env producer consumer).Provenance :=
  Exchange.provenance_foldl (Exchange.init_provenance env.start) (Exchange.init_inv env.start)
    _ producer consumer _

theorem Exchange.finish_taken (x : Exchange) (hp : x.Provenance)
    (hfin : x.finished = true) (hc : x.crashed = false) (d : Duration) (err : error)
    (h : x.finish = (d, err)) :
    ∃ c, x.taken = some c ∧ selectReturn c = (d, err) := by
  unfold Exchange.finish at h
  cases hr : x.result with
  | none => simp [Exchange.finished, hr, hc] at hfin
  | some r =>
    rw [hr] at h
    simp only at h
    obtain ⟨c, hc'⟩ := hp.fired r hr
    have := hp.returned c hc'
    rw [hr] at this
    simp only [Option.some.injEq] at this
    exact ⟨c, hc', by rw [← this, h]⟩

/-! ## C1: the two shapes of a result -/

/-- C1. Every invocation of `PubSubLatency` that returns yields one of two
shapes. Either `(d, nil)`: then the `select` of the caller fired on
`completeChan` and `d` is the value it received there, a value that line 113
sent, the measurement `now - sentTime`. Or `(failedLatency, err)` with `err`
non-nil, where `failedLatency` is 100 seconds. A nil error never comes with a
value that was not received from the completion channel. -/
theorem PubSubLatency_result_shape (cfg : Configuration) (env : ProbeEnv) (clients : ClientMap)
    (tokenStr uri topicName : String) (d : Duration) (err : error)
    (h : (PubSubLatency cfg env clients tokenStr uri topicName).status = .returned d err) :
    (err = none ∧ ∃ producer consumer,
        env.CreateProducer = .ok producer ∧ env.Subscribe = .ok consumer ∧
        (PubSubLatency.exchange env producer consumer).taken = some (.complete d) ∧
        d ∈ (PubSubLatency.exchange env producer consumer).completeSent ∧
        (PubSubLatency.exchange env producer consumer).result
          = some (selectReturn (.complete d)) ∧
        ∃ st now : Nat,
          (PubSubLatency.exchange env producer consumer).sentTime = some st ∧ st ≤ now ∧
          d = (now : Int) - (st : Int))
    ∨ (err ≠ none ∧ d = failedLatency ∧ failedLatency = 100 * 1000000000) := by
  have probe : ∀ (cl : ClientMap) (eff : List Effect) (client : Client),
      (PubSubLatency.probe env cl eff client uri topicName).status = .returned d err →
      (err = none ∧ ∃ producer consumer,
        env.CreateProducer = .ok producer ∧ env.Subscribe = .ok consumer ∧
        (PubSubLatency.exchange env producer consumer).taken = some (.complete d) ∧
        d ∈ (PubSubLatency.exchange env producer consumer).completeSent ∧
        (PubSubLatency.exchange env producer consumer).result
          = some (selectReturn (.complete d)) ∧
        ∃ st now : Nat,
          (PubSubLatency.exchange env producer consumer).sentTime = some st ∧ st ≤ now ∧
          d = (now : Int) - (st : Int))
      ∨ (err ≠ none ∧ d = failedLatency ∧ failedLatency = 100 * 1000000000) := by
    intro cl eff client hp
    unfold PubSubLatency.probe at hp
    cases hprod : env.CreateProducer with
    | error e =>
      rw [hprod] at hp
      simp only [Status.returned.injEq] at hp
      exact Or.inr ⟨by rw [← hp.2]; simp, hp.1.symm, rfl⟩
    | ok producer =>
      rw [hprod] at hp
      cases hsub : env.Subscribe with
      | error e =>
        rw [hsub] at hp
        simp only [Status.returned.injEq] at hp
        exact Or.inr ⟨by rw [← hp.2]; simp, hp.1.symm, rfl⟩
      | ok consumer =>
        rw [hsub] at hp
        simp only at hp
        split at hp
        · cases hp
        · rename_i hcr
          simp only [Status.returned.injEq] at hp
          have hfin : (PubSubLatency.exchange env producer consumer).finish = (d, err) :=
            Prod.ext hp.1 hp.2
          have hprov := PubSubLatency.exchange_provenance env producer consumer
          obtain ⟨c, htaken, hc⟩ := Exchange.finish_taken _ hprov
            (PubSubLatency.exchange_finished env producer consumer) (by simpa using hcr)
            d err hfin
          cases c with
          | complete receiverLatency =>
            simp only [selectReturn, Prod.mk.injEq] at hc
            obtain ⟨hd, he⟩ := hc
            subst hd
            have hsent := hprov.completeTaken _ htaken
            obtain ⟨st, now, h1, h2, _, h4⟩ := hprov.measured _ hsent
            exact Or.inl ⟨he.symm, producer, consumer, rfl, rfl, htaken, hsent,
              hprov.returned _ htaken, st, now, h1, h2, h4⟩
          | failed reportedErr =>
            simp only [selectReturn, Prod.mk.injEq] at hc
            obtain ⟨hd, he⟩ := hc
            subst he
            exact Or.inr ⟨hprov.failedTaken _ htaken, hd.symm, rfl⟩
          | tick =>
            simp only [selectReturn, Prod.mk.injEq] at hc
            obtain ⟨hd, he⟩ := hc
            exact Or.inr ⟨by rw [← he]; simp [errors.New], hd.symm, rfl⟩
  unfold PubSubLatency at h
  cases hget : clients.get uri with
  | some client =>
    rw [hget] at h
    exact probe _ _ _ h
  | none =>
    rw [hget] at h
    cases hnew : env.NewClient with
    | error e =>
      rw [hnew] at h
      simp only [Status.returned.injEq] at h
      exact Or.inr ⟨by rw [← h.2]; simp, h.1.symm, rfl⟩
    | ok client =>
      rw [hnew] at h
      exact probe _ _ _ h

/-- C1 at a healthy endpoint: the call returns the measured 1.8 s with a nil
error, received from the completion channel. -/
theorem PubSubLatency_result_shape_witness :
    (PubSubLatency sampleCfg healthyEnv [] "master" "pulsar://a:6650" "t").status
        = .returned 1800000000 none ∧
    (((none : error) = none ∧ ∃ producer consumer,
        healthyEnv.CreateProducer = .ok producer ∧ healthyEnv.Subscribe = .ok consumer ∧
        (PubSubLatency.exchange healthyEnv producer consumer).taken
          = some (.complete 1800000000) ∧
        (1800000000 : Duration) ∈
          (PubSubLatency.exchange healthyEnv producer consumer).completeSent ∧
        (PubSubLatency.exchange healthyEnv producer consumer).result
          = some (selectReturn (.complete 1800000000)) ∧
        ∃ st now : Nat,
          (PubSubLatency.exchange healthyEnv producer consumer).sentTime = some st ∧ st ≤ now ∧
          (1800000000 : Duration) = (now : Int) - (st : Int))
    ∨ ((none : error) ≠ none ∧ (1800000000 : Duration) = failedLatency ∧
        failedLatency = 100 * 1000000000)) :=
  ⟨by decide,
   PubSubLatency_result_shape sampleCfg healthyEnv [] "master" "pulsar://a:6650" "t"
     1800000000 none (by decide)⟩

/-! ## C2: the alert decision -/

/-- C2 as stated fails. For an entry whose `PulsarURL` has no colon and whose
probe fails, the loop body panics at line 167 before line 170 is reached: the
probe returned a non-nil error and `Alert` was not called. -/
theorem MeasureLatency_failed_probe_not_alerted :
    (PubSubLatency sampleCfg unreachableEnv [] "master" bareHostEntry.PulsarURL
        bareHostEntry.TopicName).status
      = .returned failedLatency (some ⟨"invalid service URL"⟩) ∧
    (MeasureLatency.body sampleCfg "master" unreachableEnv [] bareHostEntry).status
      = .panicked "index out of range [1] with length 1" ∧
    alerts (MeasureLatency.body sampleCfg "master" unreachableEnv [] bareHostEntry).effects
      = [] := by
  decide

/-- C2, amended. For an entry whose `PulsarURL` contains a colon and whose probe
returned `(L, err)`, with `B` the effective budget: the iteration completes,
and the `Alert` calls it makes are exactly one "Pulsar error" alert when `err`
is non-nil, exactly one "over the budget" alert when `err` is nil and `L > B`,
and none otherwise. -/
theorem MeasureLatency_alert_decision (cfg : Configuration) (token : String) (env : ProbeEnv)
    (clients : ClientMap) (cluster : TopicCfg) (L : Duration) (err : error)
    (hurl : ':' ∈ cluster.PulsarURL.toList)
    (hrun : (PubSubLatency cfg env clients token cluster.PulsarURL cluster.TopicName).status
      = .returned L err) :
    (MeasureLatency.body cfg token env clients cluster).status = .returned ∧
    ∃ clusterName, (strings.Split cluster.PulsarURL ':')[1]? = some clusterName ∧
      alerts (MeasureLatency.body cfg token env clients cluster).effects =
        if err ≠ none then [AlertText.pulsarError clusterName err]
        else if L > TimeDuration cluster.LatencyBudgetMs latencyBudget time.Millisecond then
          [AlertText.overBudget clusterName L
            (TimeDuration cluster.LatencyBudgetMs latencyBudget time.Millisecond)]
        else [] := by
  have hinner := alerts_of_not_sweep _
    (PubSubLatency.effects_not_sweep cfg env clients token cluster.PulsarURL cluster.TopicName)
  cases hname : (strings.Split cluster.PulsarURL ':')[1]? with
  | none => exact absurd hurl ((Split_index_one_eq_none_iff _ _).mp hname)
  | some clusterName =>
    unfold MeasureLatency.body
    simp only [hrun, hname]
    by_cases herr : err ≠ none
    · simp only [if_pos herr]
      refine ⟨trivial, clusterName, rfl, ?_⟩
      have : ∀ l : List Effect, Effect.PubSubLatency token cluster.PulsarURL cluster.TopicName :: l
          = [Effect.PubSubLatency token cluster.PulsarURL cluster.TopicName] ++ l := fun _ => rfl
      rw [this, alerts_append, alerts_append, hinner]
      rfl
    · simp only [if_neg herr]
      by_cases hlat : L > TimeDuration cluster.LatencyBudgetMs latencyBudget time.Millisecond
      · simp only [if_pos hlat]
        refine ⟨trivial, clusterName, rfl, ?_⟩
        have : ∀ l : List Effect,
            Effect.PubSubLatency token cluster.PulsarURL cluster.TopicName :: l
            = [Effect.PubSubLatency token cluster.PulsarURL cluster.TopicName] ++ l :=
          fun _ => rfl
        rw [this, alerts_append, alerts_append, hinner]
        rfl
      · simp only [if_neg hlat]
        refine ⟨trivial, clusterName, rfl, ?_⟩
        have : ∀ l : List Effect,
            Effect.PubSubLatency token cluster.PulsarURL cluster.TopicName :: l
            = [Effect.PubSubLatency token cluster.PulsarURL cluster.TopicName] ++ l :=
          fun _ => rfl
        rw [this, alerts_append, hinner]
        rfl

/-- C2, amended, at an entry without a budget of its own and a measured
latency of 1.8 s: the iteration completes without an alert. -/
theorem MeasureLatency_alert_decision_witness :
    ':' ∈ sampleEntry.PulsarURL.toList ∧
    (PubSubLatency sampleCfg healthyEnv [] "master" sampleEntry.PulsarURL
        sampleEntry.TopicName).status = .returned 1800000000 none ∧
    (MeasureLatency.body sampleCfg "master" healthyEnv [] sampleEntry).status = .returned ∧
    alerts (MeasureLatency.body sampleCfg "master" healthyEnv [] sampleEntry).effects = [] :=
  ⟨by decide, by decide,
   (MeasureLatency_alert_decision sampleCfg "master" healthyEnv [] sampleEntry 1800000000 none
      (by decide) (by decide)).1,
   by decide⟩

/-! ## C3: a failed setup leaves no cached connection -/

/-- C3. When `PubSubLatency` returns because constructing the connection,
opening the producer or subscribing the consumer failed, it returns the
sentinel with the error, the `clients` map has no entry for `uri` afterwards,
its entries for all other endpoints are unchanged, and the next probe against
`uri` takes the cache-miss branch: its first call is `pulsar.NewClient`. -/
theorem PubSubLatency_setup_failure_leaves_no_client (cfg : Configuration) (env : ProbeEnv)
    (clients : ClientMap) (tokenStr uri topicName : String)
    (hfail : (clients.get uri = none ∧ ∃ e, env.NewClient = .error e) ∨
      (∃ e, env.CreateProducer = .error e) ∨ (∃ e, env.Subscribe = .error e)) :
    (∃ e, (PubSubLatency cfg env clients tokenStr uri topicName).status
        = .returned failedLatency (some e)) ∧
    (PubSubLatency cfg env clients tokenStr uri topicName).clients.get uri = none ∧
    (∀ u, u ≠ uri →
      (PubSubLatency cfg env clients tokenStr uri topicName).clients.get u = clients.get u) ∧
    (∀ (next : ProbeEnv) (tokenStr' topicName' : String), ∃ res,
      (PubSubLatency cfg next (PubSubLatency cfg env clients tokenStr uri topicName).clients
          tokenStr' uri topicName').effects.head?
        = some (.NewClient uri tokenStr'
            (AssignString [cfg.PulsarPerfConfig.TrustStore, "/etc/ssl/certs/ca-bundle.crt"])
            res)) := by
  obtain ⟨h1, h2, h3⟩ :=
    PubSubLatency.setup_failure_clients cfg env clients tokenStr uri topicName hfail
  exact ⟨h1, h2, h3, fun next tokenStr' topicName' =>
    PubSubLatency.calls_NewClient_of_miss cfg next _ tokenStr' uri topicName' h2⟩

/-- C3 at a cached connection whose subscription fails: the entry is gone, the
entry of another endpoint stays, and the next probe constructs a connection. -/
theorem PubSubLatency_setup_failure_leaves_no_client_witness :
    ((ClientMap.get [("pulsar://a:6650", ⟨5⟩), ("pulsar://b:6650", ⟨6⟩)] "pulsar://a:6650" = none ∧
        ∃ e, subscribeFailEnv.NewClient = .error e) ∨
      (∃ e, subscribeFailEnv.CreateProducer = .error e) ∨
      (∃ e, subscribeFailEnv.Subscribe = .error e)) ∧
    (PubSubLatency sampleCfg subscribeFailEnv
        [("pulsar://a:6650", ⟨5⟩), ("pulsar://b:6650", ⟨6⟩)] "master" "pulsar://a:6650"
        "t").clients.get "pulsar://a:6650" = none ∧
    ("pulsar://b:6650" ≠ "pulsar://a:6650" ∧
      (PubSubLatency sampleCfg subscribeFailEnv
        [("pulsar://a:6650", ⟨5⟩), ("pulsar://b:6650", ⟨6⟩)] "master" "pulsar://a:6650"
        "t").clients.get "pulsar://b:6650"
      = ClientMap.get [("pulsar://a:6650", ⟨5⟩), ("pulsar://b:6650", ⟨6⟩)] "pulsar://b:6650") ∧
    (∃ res,
      (PubSubLatency sampleCfg healthyEnv
          (PubSubLatency sampleCfg subscribeFailEnv
            [("pulsar://a:6650", ⟨5⟩), ("pulsar://b:6650", ⟨6⟩)] "master" "pulsar://a:6650"
            "t").clients
          "master" "pulsar://a:6650" "t").effects.head?
        = some (.NewClient "pulsar://a:6650" "master"
            (AssignString [sampleCfg.PulsarPerfConfig.TrustStore, "/etc/ssl/certs/ca-bundle.crt"])
            res)) :=
  ⟨Or.inr (Or.inr ⟨⟨"connection error"⟩, rfl⟩),
   (PubSubLatency_setup_failure_leaves_no_client sampleCfg subscribeFailEnv
     [("pulsar://a:6650", ⟨5⟩), ("pulsar://b:6650", ⟨6⟩)] "master" "pulsar://a:6650" "t"
     (Or.inr (Or.inr ⟨⟨"connection error"⟩, rfl⟩))).2.1,
   ⟨by decide,
    (PubSubLatency_setup_failure_leaves_no_client sampleCfg subscribeFailEnv
      [("pulsar://a:6650", ⟨5⟩), ("pulsar://b:6650", ⟨6⟩)] "master" "pulsar://a:6650" "t"
      (Or.inr (Or.inr ⟨⟨"connection error"⟩, rfl⟩))).2.2.1 "pulsar://b:6650" (by decide)⟩,
   (PubSubLatency_setup_failure_leaves_no_client sampleCfg subscribeFailEnv
     [("pulsar://a:6650", ⟨5⟩), ("pulsar://b:6650", ⟨6⟩)] "master" "pulsar://a:6650" "t"
     (Or.inr (Or.inr ⟨⟨"connection error"⟩, rfl⟩))).2.2.2 healthyEnv "master" "t"⟩

/-! ## C4: the order of the closes when the subscription fails -/

/-- C4 (the code departs from the claim). With the producer open and
`client.Subscribe` failing, the deferred calls run last-in-first-out: the
`client.Close()` deferred at line 80 runs before the `producer.Close()` deferred
at line 69, so the connection is closed while the producer is still open. -/
theorem PubSubLatency_subscribe_failure_close_order :
    (PubSubLatency sampleCfg subscribeFailEnv [] "master" "pulsar://a:6650" "t").status
      = .returned failedLatency (some ⟨"connection error"⟩) ∧
    (PubSubLatency sampleCfg subscribeFailEnv [] "master" "pulsar://a:6650" "t").effects
      = [.NewClient "pulsar://a:6650" "master" "/etc/ssl/certs/ca-bundle.crt" (some ⟨1⟩),
         .CreateProducer ⟨1⟩ "t" (some ⟨2⟩),
         .Subscribe ⟨1⟩ "t" "latency-measure" none,
         .ClientClose ⟨1⟩,
         .ProducerClose ⟨2⟩] := by
  decide

/-! ## C5: producer and consumer are closed -/

/-- C5. In every invocation of `PubSubLatency` that returns, every producer
and every consumer that was opened is closed exactly once, and when both were
opened the consumer is closed before the producer. -/
theorem PubSubLatency_closes_session (cfg : Configuration) (env : ProbeEnv)
    (clients : ClientMap) (tokenStr uri topicName : String) (d : Duration) (err : error)
    (h : (PubSubLatency cfg env clients tokenStr uri topicName).status = .returned d err) :
    (∀ c t p, Effect.CreateProducer c t (some p) ∈
        (PubSubLatency cfg env clients tokenStr uri topicName).effects →
      (PubSubLatency cfg env clients tokenStr uri topicName).effects.count
        (.ProducerClose p) = 1) ∧
    (∀ c t n k, Effect.Subscribe c t n (some k) ∈
        (PubSubLatency cfg env clients tokenStr uri topicName).effects →
      (PubSubLatency cfg env clients tokenStr uri topicName).effects.count
        (.ConsumerClose k) = 1) ∧
    (∀ c t p c' t' n k,
      Effect.CreateProducer c t (some p) ∈
        (PubSubLatency cfg env clients tokenStr uri topicName).effects →
      Effect.Subscribe c' t' n (some k) ∈
        (PubSubLatency cfg env clients tokenStr uri topicName).effects →
      ∃ before between after,
        (PubSubLatency cfg env clients tokenStr uri topicName).effects =
          before ++ Effect.ConsumerClose k :: (between ++ Effect.ProducerClose p :: after)) := by
  have probe : ∀ (cl : ClientMap) (eff : List Effect) (client : Client),
      (∀ e ∈ eff, ∃ a b t res, e = Effect.NewClient a b t res) →
      (PubSubLatency.probe env cl eff client uri topicName).status = .returned d err →
      (∀ c t p, Effect.CreateProducer c t (some p) ∈
          (PubSubLatency.probe env cl eff client uri topicName).effects →
        (PubSubLatency.probe env cl eff client uri topicName).effects.count
          (.ProducerClose p) = 1) ∧
      (∀ c t n k, Effect.Subscribe c t n (some k) ∈
          (PubSubLatency.probe env cl eff client uri topicName).effects →
        (PubSubLatency.probe env cl eff client uri topicName).effects.count
          (.ConsumerClose k) = 1) ∧
      (∀ c t p c' t' n k,
        Effect.CreateProducer c t (some p) ∈
          (PubSubLatency.probe env cl eff client uri topicName).effects →
        Effect.Subscribe c' t' n (some k) ∈
          (PubSubLatency.probe env cl eff client uri topicName).effects →
        ∃ before between after,
          (PubSubLatency.probe env cl eff client uri topicName).effects =
            before ++ Effect.ConsumerClose k :: (between ++ Effect.ProducerClose p :: after)) := by
    intro cl eff client heff hp
    have hcountP : ∀ p, eff.count (Effect.ProducerClose p) = 0 := by
      intro p
      rw [List.count_eq_zero]
      intro hmem
      obtain ⟨a, b, t, res, he⟩ := heff _ hmem
      cases he
    have hcountK : ∀ k, eff.count (Effect.ConsumerClose k) = 0 := by
      intro k
      rw [List.count_eq_zero]
      intro hmem
      obtain ⟨a, b, t, res, he⟩ := heff _ hmem
      cases he
    have hnoP : ∀ c t p, Effect.CreateProducer c t p ∉ eff := by
      intro c t p hmem
      obtain ⟨a, b, t, res, he⟩ := heff _ hmem
      cases he
    have hnoK : ∀ c t n k, Effect.Subscribe c t n k ∉ eff := by
      intro c t n k hmem
      obtain ⟨a, b, t, res, he⟩ := heff _ hmem
      cases he
    cases hprod : env.CreateProducer with
    | error e =>
      unfold PubSubLatency.probe
      rw [hprod]
      simp [hnoP, hnoK]
    | ok producer =>
      cases hsub : env.Subscribe with
      | error e =>
        unfold PubSubLatency.probe
        rw [hprod, hsub]
        simp only [runDeferred, Deferred.call, List.map_cons, List.map_nil]
        refine ⟨?_, ?_, ?_⟩
        · intro c t p hmem
          simp [hnoP] at hmem
          rw [← hmem.2.2]
          simp [List.count_append, List.count_cons, hcountP]
        · intro c t n k hmem
          simp [hnoK] at hmem
        · intro c t p c' t' n k _ hmem
          simp [hnoK] at hmem
      | ok consumer =>
        have hx := PubSubLatency.exchange_effects env producer consumer
        have hxP : ∀ p, (PubSubLatency.exchange env producer consumer).effects.count
            (Effect.ProducerClose p) = 0 := by
          intro p
          rw [List.count_eq_zero]
          intro hmem
          exact absurd (hx _ hmem) (by simp [Effect.isExchange])
        have hxK : ∀ k, (PubSubLatency.exchange env producer consumer).effects.count
            (Effect.ConsumerClose k) = 0 := by
          intro k
          rw [List.count_eq_zero]
          intro hmem
          exact absurd (hx _ hmem) (by simp [Effect.isExchange])
        have hxnoP : ∀ c t p, Effect.CreateProducer c t p ∉
            (PubSubLatency.exchange env producer consumer).effects := by
          intro c t p hmem
          exact absurd (hx _ hmem) (by simp [Effect.isExchange])
        have hxnoK : ∀ c t n k, Effect.Subscribe c t n k ∉
            (PubSubLatency.exchange env producer consumer).effects := by
          intro c t n k hmem
          exact absurd (hx _ hmem) (by simp [Effect.isExchange])
        obtain ⟨_, h2⟩ := PubSubLatency.probe_session_opened env cl eff client uri topicName
          producer consumer hprod hsub
        have hnc : (PubSubLatency.exchange env producer consumer).crashed = false := by
          unfold PubSubLatency.probe at hp
          rw [hprod, hsub] at hp
          simp only at hp
          split at hp
          · cases hp
          · rename_i hc
            simpa using hc
        rw [hnc] at h2
        simp only [Bool.false_eq_true, if_false] at h2
        rw [h2]
        refine ⟨?_, ?_, ?_⟩
        · intro c t p hmem
          simp [hnoP, hxnoP] at hmem
          obtain ⟨-, -, hpp⟩ := hmem
          subst hpp
          simp [List.count_append, List.count_cons, hcountP, hxP]
        · intro c t n k hmem
          simp [hnoK, hxnoK] at hmem
          obtain ⟨-, -, -, hkk⟩ := hmem
          subst hkk
          simp [List.count_append, List.count_cons, hcountK, hxK]
        · intro c t p c' t' n k hmemP hmemK
          simp [hnoP, hxnoP] at hmemP
          simp [hnoK, hxnoK] at hmemK
          obtain ⟨-, -, hpp⟩ := hmemP
          obtain ⟨-, -, -, hkk⟩ := hmemK
          subst hpp
          subst hkk
          exact ⟨eff ++ [.CreateProducer client topicName (some p),
              .Subscribe client topicName "latency-measure" (some k)]
              ++ (PubSubLatency.exchange env p k).effects, [], [], by simp⟩
  unfold PubSubLatency at h ⊢
  cases hget : clients.get uri with
  | some client =>
    rw [hget] at h
    exact probe _ _ _ (by simp) h
  | none =>
    rw [hget] at h
    cases hnew : env.NewClient with
    | error e => simp
    | ok client =>
      rw [hnew] at h
      exact probe _ _ _ (by simp) h

/-- C5 at a healthy endpoint: the producer and the consumer it opened are each
closed once. -/
theorem PubSubLatency_closes_session_witness :
    (PubSubLatency sampleCfg healthyEnv [] "master" "pulsar://a:6650" "t").status
        = .returned 1800000000 none ∧
    (PubSubLatency sampleCfg healthyEnv [] "master" "pulsar://a:6650" "t").effects.count
        (.ProducerClose ⟨2⟩) = 1 ∧
    (PubSubLatency sampleCfg healthyEnv [] "master" "pulsar://a:6650" "t").effects.count
        (.ConsumerClose ⟨3⟩) = 1 :=
  ⟨by decide,
   (PubSubLatency_closes_session sampleCfg healthyEnv [] "master" "pulsar://a:6650" "t"
      1800000000 none (by decide)).1 ⟨1⟩ "t" ⟨2⟩ (by decide),
   (PubSubLatency_closes_session sampleCfg healthyEnv [] "master" "pulsar://a:6650" "t"
      1800000000 none (by decide)).2.1 ⟨1⟩ "t" "latency-measure" ⟨3⟩ (by decide)⟩

/-! ## C6: the connection stays cached -/

/-- C6. When the producer and the consumer both open, the `clients` map
afterwards maps `uri` to the connection the probe used and is unchanged at
every other endpoint, whatever the outcome of the exchange, and no connection
is closed. When that connection was already cached, the map after the call is
the map before it and `pulsar.NewClient` is not called. -/
theorem PubSubLatency_keeps_client (cfg : Configuration) (env : ProbeEnv)
    (clients : ClientMap) (tokenStr uri topicName : String)
    (producer : Producer) (consumer : Consumer) (client : Client)
    (hp : env.CreateProducer = .ok producer) (hk : env.Subscribe = .ok consumer)
    (hc : clients.get uri = some client ∨
      (clients.get uri = none ∧ env.NewClient = .ok client)) :
    (PubSubLatency cfg env clients tokenStr uri topicName).clients.get uri = some client ∧
    (∀ u, u ≠ uri →
      (PubSubLatency cfg env clients tokenStr uri topicName).clients.get u = clients.get u) ∧
    (∀ c, Effect.ClientClose c ∉ (PubSubLatency cfg env clients tokenStr uri topicName).effects) ∧
    (clients.get uri = some client →
      (PubSubLatency cfg env clients tokenStr uri topicName).clients = clients ∧
      ∀ a b t res, Effect.NewClient a b t res ∉
        (PubSubLatency cfg env clients tokenStr uri topicName).effects) := by
  have hx := PubSubLatency.exchange_effects env producer consumer
  unfold PubSubLatency
  rcases hc with hget | ⟨hget, hnew⟩
  · obtain ⟨h1, h2⟩ := PubSubLatency.probe_session_opened env clients [] client uri topicName
      producer consumer hp hk
    rw [hget]
    simp only
    refine ⟨by rw [h1]; exact hget, fun u _ => by rw [h1], ?_, fun _ => ⟨h1, ?_⟩⟩
    · intro c hmem
      rw [h2] at hmem
      simp only [List.nil_append, List.mem_append, List.mem_cons, List.mem_singleton,
        List.not_mem_nil, or_false, reduceCtorEq, false_or] at hmem
      rcases hmem with hmem | hmem
      · exact absurd (hx _ hmem) (by simp [Effect.isExchange])
      · split at hmem <;> simp at hmem
    · intro a b t res hmem
      rw [h2] at hmem
      simp only [List.nil_append, List.mem_append, List.mem_cons, List.mem_singleton,
        List.not_mem_nil, or_false, reduceCtorEq, false_or] at hmem
      rcases hmem with hmem | hmem
      · exact absurd (hx _ hmem) (by simp [Effect.isExchange])
      · split at hmem <;> simp at hmem
  · obtain ⟨h1, h2⟩ := PubSubLatency.probe_session_opened env (clients.set uri client)
      [.NewClient uri tokenStr
        (AssignString [cfg.PulsarPerfConfig.TrustStore, "/etc/ssl/certs/ca-bundle.crt"])
        (some client)] client uri topicName producer consumer hp hk
    rw [hget, hnew]
    simp only
    refine ⟨?_, ?_, ?_, ?_⟩
    · rw [h1]
      exact ClientMap.get_set_self clients uri client
    · intro u hu
      rw [h1]
      exact ClientMap.get_set_of_ne clients uri u client hu
    · intro c hmem
      rw [h2] at hmem
      simp only [List.mem_append, List.mem_cons, List.mem_singleton,
        List.not_mem_nil, or_false, reduceCtorEq, false_or] at hmem
      rcases hmem with hmem | hmem
      · exact absurd (hx _ hmem) (by simp [Effect.isExchange])
      · split at hmem <;> simp at hmem
    · intro h
      cases h

/-- C6 at a cached connection and an endpoint that never echoes: after the
15 s timeout the map is the one before the call. -/
theorem PubSubLatency_keeps_client_witness :
    (silentEnv.CreateProducer = .ok ⟨2⟩ ∧ silentEnv.Subscribe = .ok ⟨3⟩ ∧
      (ClientMap.get [("pulsar://a:6650", ⟨5⟩)] "pulsar://a:6650" = some ⟨5⟩ ∨
        (ClientMap.get [("pulsar://a:6650", ⟨5⟩)] "pulsar://a:6650" = none ∧
          silentEnv.NewClient = .ok ⟨5⟩))) ∧
    (PubSubLatency sampleCfg silentEnv [("pulsar://a:6650", ⟨5⟩)] "master" "pulsar://a:6650"
        "t").status
      = .returned failedLatency (errors.New "latency measure not received after timeout") ∧
    (PubSubLatency sampleCfg silentEnv [("pulsar://a:6650", ⟨5⟩)] "master" "pulsar://a:6650"
        "t").clients = [("pulsar://a:6650", ⟨5⟩)] ∧
    (∀ c, Effect.ClientClose c ∉
      (PubSubLatency sampleCfg silentEnv [("pulsar://a:6650", ⟨5⟩)] "master" "pulsar://a:6650"
        "t").effects) :=
  ⟨⟨rfl, rfl, Or.inl (by decide)⟩, by decide,
   ((PubSubLatency_keeps_client sampleCfg silentEnv [("pulsar://a:6650", ⟨5⟩)] "master"
      "pulsar://a:6650" "t" ⟨2⟩ ⟨3⟩ ⟨5⟩ rfl rfl (Or.inl (by decide))).2.2.2 (by decide)).1,
   (PubSubLatency_keeps_client sampleCfg silentEnv [("pulsar://a:6650", ⟨5⟩)] "master"
      "pulsar://a:6650" "t" ⟨2⟩ ⟨3⟩ ⟨5⟩ rfl rfl (Or.inl (by decide))).2.2.1⟩

/-! ## C7: the token of the probe -/

/-- C7 as stated fails. The one entry of `sampleCfg` has the non-empty token
"topic-token", and the one call of `PubSubLatency` is made with the master
token, which is a different string. -/
theorem MeasureLatency_ignores_entry_token :
    sampleCfg.PulsarPerfConfig.TopicCfgs = [sampleEntry] ∧
    sampleEntry.Token ≠ "" ∧
    probeCalls (MeasureLatency sampleCfg (fun _ => healthyEnv) []).effects
      = [("master", sampleEntry.PulsarURL, sampleEntry.TopicName)] ∧
    "master" ≠ sampleEntry.Token := by
  decide

/-- C7, amended. Every call of `PubSubLatency` that `MeasureLatency` makes
passes the same token: `PulsarPerfConfig.Token` when it is non-empty, and
`PulsarOpsConfig.MasterToken` otherwise. The `Token` of the entry is not read. -/
theorem MeasureLatency_token (cfg : Configuration) (envs : Nat → ProbeEnv)
    (clients : ClientMap) (tokenStr uri topicName : String)
    (h : (tokenStr, uri, topicName) ∈ probeCalls (MeasureLatency cfg envs clients).effects) :
    tokenStr = if cfg.PulsarPerfConfig.Token ≠ "" then cfg.PulsarPerfConfig.Token
      else cfg.PulsarOpsConfig.MasterToken := by
  have h1 := MeasureLatency.loop_probeCalls_token cfg
    (AssignString [cfg.PulsarPerfConfig.Token, cfg.PulsarOpsConfig.MasterToken]) envs
    cfg.PulsarPerfConfig.TopicCfgs 0 clients (tokenStr, uri, topicName) h
  simp only at h1
  rw [h1]
  simp only [AssignString]
  split
  · rfl
  · split
    · rfl
    · rename_i hm
      simp only [ne_eq, Decidable.not_not] at hm
      exact hm.symm

/-- C7, amended, at `sampleCfg`: the call is made with the master token. -/
theorem MeasureLatency_token_witness :
    ("master", sampleEntry.PulsarURL, sampleEntry.TopicName) ∈
      probeCalls (MeasureLatency sampleCfg (fun _ => healthyEnv) []).effects ∧
    "master" = (if sampleCfg.PulsarPerfConfig.Token ≠ "" then sampleCfg.PulsarPerfConfig.Token
      else sampleCfg.PulsarOpsConfig.MasterToken) :=
  ⟨by decide,
   MeasureLatency_token sampleCfg (fun _ => healthyEnv) [] "master" sampleEntry.PulsarURL
     sampleEntry.TopicName (by decide)⟩

/-! ## C8: the sweep over the entries -/

/-- C8 as stated fails. With a first entry whose `PulsarURL` is "localhost",
`strings.Split(cluster.PulsarURL, ":")` has one element and the index 1 is out
of range: the sweep panics after the first probe, whose failure is not
alerted, and the second entry is never probed. -/
theorem MeasureLatency_panics_without_colon :
    strings.Split "localhost" ':' = ["localhost"] ∧
    (MeasureLatency bareHostCfg (fun _ => unreachableEnv) []).status
      = .panicked "index out of range [1] with length 1" ∧
    probeCalls (MeasureLatency bareHostCfg (fun _ => unreachableEnv) []).effects
      = [("perf", "localhost", "persistent://ops/ns/latency")] ∧
    alerts (MeasureLatency bareHostCfg (fun _ => unreachableEnv) []).effects = [] := by
  decide

/-- C8, amended. When every `PulsarURL` of the configuration contains a colon,
the index 1 of `strings.Split(cluster.PulsarURL, ":")` is in range for every
entry and `MeasureLatency` does not panic; and when, besides, no receive
goroutine faults, `MeasureLatency` returns, whatever the probes return, having
called `PubSubLatency` once for every entry of `TopicCfgs`, in order. For each
entry `cluster`, with `front` the entries before it and `back` those after it,
the calls of the sweep are those of the sweep over `front`, then those of the
iteration for `cluster`, on the `clients` map the sweep over `front` left, then
those of the sweep over `back`; the iteration for `cluster` completes, and when
its probe returned a non-nil error it calls `Alert` once, with the text of line
170, so that this alert is among the alerts of the sweep and the entries of
`back` are probed after it. -/
theorem MeasureLatency_probes_every_entry (cfg : Configuration) (envs : Nat → ProbeEnv)
    (clients : ClientMap)
    (hurl : ∀ c ∈ cfg.PulsarPerfConfig.TopicCfgs, ':' ∈ c.PulsarURL.toList) :
    (∀ text, (MeasureLatency cfg envs clients).status ≠ .panicked text) ∧
    (∀ c ∈ cfg.PulsarPerfConfig.TopicCfgs,
      ∃ clusterName, (strings.Split c.PulsarURL ':')[1]? = some clusterName) ∧
    ((∀ j producer consumer,
        (PubSubLatency.exchange (envs j) producer consumer).crashed = false) →
      (MeasureLatency cfg envs clients).status = .returned ∧
      probeCalls (MeasureLatency cfg envs clients).effects
        = cfg.PulsarPerfConfig.TopicCfgs.map (fun c =>
            (AssignString [cfg.PulsarPerfConfig.Token, cfg.PulsarOpsConfig.MasterToken],
             c.PulsarURL, c.TopicName)) ∧
      ∀ (front : List TopicCfg) (cluster : TopicCfg) (back : List TopicCfg),
        cfg.PulsarPerfConfig.TopicCfgs = front ++ cluster :: back →
        (MeasureLatency cfg envs clients).effects
          = (MeasureLatency.loop cfg
              (AssignString [cfg.PulsarPerfConfig.Token, cfg.PulsarOpsConfig.MasterToken])
              envs front 0 clients).effects
            ++ (MeasureLatency.body cfg
              (AssignString [cfg.PulsarPerfConfig.Token, cfg.PulsarOpsConfig.MasterToken])
              (envs front.length)
              (MeasureLatency.loop cfg
                (AssignString [cfg.PulsarPerfConfig.Token, cfg.PulsarOpsConfig.MasterToken])
                envs front 0 clients).clients cluster).effects
            ++ (MeasureLatency.loop cfg
              (AssignString [cfg.PulsarPerfConfig.Token, cfg.PulsarOpsConfig.MasterToken])
              envs back (front.length + 1)
              (MeasureLatency.body cfg
                (AssignString [cfg.PulsarPerfConfig.Token, cfg.PulsarOpsConfig.MasterToken])
                (envs front.length)
                (MeasureLatency.loop cfg
                  (AssignString [cfg.PulsarPerfConfig.Token, cfg.PulsarOpsConfig.MasterToken])
                  envs front 0 clients).clients cluster).clients).effects ∧
        probeCalls (MeasureLatency.loop cfg
            (AssignString [cfg.PulsarPerfConfig.Token, cfg.PulsarOpsConfig.MasterToken])
            envs front 0 clients).effects
          = front.map (fun c =>
              (AssignString [cfg.PulsarPerfConfig.Token, cfg.PulsarOpsConfig.MasterToken],
               c.PulsarURL, c.TopicName)) ∧
        probeCalls (MeasureLatency.loop cfg
            (AssignString [cfg.PulsarPerfConfig.Token, cfg.PulsarOpsConfig.MasterToken])
            envs back (front.length + 1)
            (MeasureLatency.body cfg
              (AssignString [cfg.PulsarPerfConfig.Token, cfg.PulsarOpsConfig.MasterToken])
              (envs front.length)
              (MeasureLatency.loop cfg
                (AssignString [cfg.PulsarPerfConfig.Token, cfg.PulsarOpsConfig.MasterToken])
                envs front 0 clients).clients cluster).clients).effects
          = back.map (fun c =>
              (AssignString [cfg.PulsarPerfConfig.Token, cfg.PulsarOpsConfig.MasterToken],
               c.PulsarURL, c.TopicName)) ∧
        (MeasureLatency.body cfg
            (AssignString [cfg.PulsarPerfConfig.Token, cfg.PulsarOpsConfig.MasterToken])
            (envs front.length)
            (MeasureLatency.loop cfg
              (AssignString [cfg.PulsarPerfConfig.Token, cfg.PulsarOpsConfig.MasterToken])
              envs front 0 clients).clients cluster).status = .returned ∧
        ∀ (L : Duration) (err : error),
          (PubSubLatency cfg (envs front.length)
              (MeasureLatency.loop cfg
                (AssignString [cfg.PulsarPerfConfig.Token, cfg.PulsarOpsConfig.MasterToken])
                envs front 0 clients).clients
              (AssignString [cfg.PulsarPerfConfig.Token, cfg.PulsarOpsConfig.MasterToken])
              cluster.PulsarURL cluster.TopicName).status = .returned L err →
          err ≠ none →
          ∃ clusterName, (strings.Split cluster.PulsarURL ':')[1]? = some clusterName ∧
            alerts (MeasureLatency.body cfg
                (AssignString [cfg.PulsarPerfConfig.Token, cfg.PulsarOpsConfig.MasterToken])
                (envs front.length)
                (MeasureLatency.loop cfg
                  (AssignString [cfg.PulsarPerfConfig.Token, cfg.PulsarOpsConfig.MasterToken])
                  envs front 0 clients).clients cluster).effects
              = [AlertText.pulsarError clusterName err] ∧
            AlertText.pulsarError clusterName err
              ∈ alerts (MeasureLatency cfg envs clients).effects) := by
  refine ⟨fun text => MeasureLatency.loop_not_panicked cfg _ envs
      cfg.PulsarPerfConfig.TopicCfgs 0 clients hurl text, ?_, ?_⟩
  · intro c hc
    cases hname : (strings.Split c.PulsarURL ':')[1]? with
    | none => exact absurd (hurl c hc) ((Split_index_one_eq_none_iff _ _).mp hname)
    | some clusterName => exact ⟨clusterName, rfl⟩
  · intro hrecv
    have hall := MeasureLatency.loop_probes_all cfg
      (AssignString [cfg.PulsarPerfConfig.Token, cfg.PulsarOpsConfig.MasterToken]) envs
      cfg.PulsarPerfConfig.TopicCfgs 0 clients hurl hrecv
    refine ⟨hall.1, hall.2, ?_⟩
    intro front cluster back hsplit
    have hurl2 : ∀ c ∈ front ++ cluster :: back, ':' ∈ c.PulsarURL.toList := by
      rw [← hsplit]
      exact hurl
    have hdec := MeasureLatency.loop_iteration cfg
      (AssignString [cfg.PulsarPerfConfig.Token, cfg.PulsarOpsConfig.MasterToken]) envs
      front cluster back 0 clients hurl2 hrecv
    rw [Nat.zero_add] at hdec
    have hsweep : (MeasureLatency cfg envs clients).effects
        = (MeasureLatency.loop cfg
            (AssignString [cfg.PulsarPerfConfig.Token, cfg.PulsarOpsConfig.MasterToken])
            envs (front ++ cluster :: back) 0 clients).effects := by
      unfold MeasureLatency
      simp only [hsplit]
    have hcluster : ':' ∈ cluster.PulsarURL.toList := hurl2 cluster (by simp)
    refine ⟨hsweep.trans hdec, ?_, ?_, ?_, ?_⟩
    · exact (MeasureLatency.loop_probes_all cfg _ envs front 0 clients
        (fun c hc => hurl2 c (by simp [hc])) hrecv).2
    · exact (MeasureLatency.loop_probes_all cfg _ envs back (front.length + 1) _
        (fun c hc => hurl2 c (by simp [hc])) hrecv).2
    · exact MeasureLatency.body_returns cfg _ (envs front.length) _ cluster hcluster
        (hrecv front.length)
    · intro L err hrun herr
      obtain ⟨clusterName, hname, halert⟩ := MeasureLatency.body_alerts cfg _
        (envs front.length) _ cluster L err hcluster hrun
      rw [if_pos herr] at halert
      refine ⟨clusterName, hname, halert, ?_⟩
      rw [hsweep, hdec, alerts_append, alerts_append, halert]
      simp

/-- C8, amended, at `twoEntryCfg` when the connection for the first entry
cannot be constructed: the sweep returns; the failed probe of the first entry
is alerted; the second entry is probed after that alert, and its healthy probe
raises none. -/
theorem MeasureLatency_probes_every_entry_witness :
    (∀ c ∈ twoEntryCfg.PulsarPerfConfig.TopicCfgs, ':' ∈ c.PulsarURL.toList) ∧
    (∀ (j : Nat) producer consumer,
      (PubSubLatency.exchange (firstFailsEnvs j) producer consumer).crashed = false) ∧
    twoEntryCfg.PulsarPerfConfig.TopicCfgs = [] ++ sampleEntry :: [westEntry] ∧
    (PubSubLatency twoEntryCfg (firstFailsEnvs 0) [] "master" sampleEntry.PulsarURL
        sampleEntry.TopicName).status
      = .returned failedLatency (some ⟨"invalid service URL"⟩) ∧
    (MeasureLatency twoEntryCfg firstFailsEnvs []).status = .returned ∧
    probeCalls (MeasureLatency twoEntryCfg firstFailsEnvs []).effects
      = [("master", sampleEntry.PulsarURL, sampleEntry.TopicName),
         ("master", westEntry.PulsarURL, westEntry.TopicName)] ∧
    (∃ clusterName, (strings.Split sampleEntry.PulsarURL ':')[1]? = some clusterName ∧
      alerts (MeasureLatency.body twoEntryCfg "master" (firstFailsEnvs 0) [] sampleEntry).effects
        = [AlertText.pulsarError clusterName (some ⟨"invalid service URL"⟩)] ∧
      AlertText.pulsarError clusterName (some ⟨"invalid service URL"⟩)
        ∈ alerts (MeasureLatency twoEntryCfg firstFailsEnvs []).effects) ∧
    (MeasureLatency twoEntryCfg firstFailsEnvs []).effects.filter Effect.isSweep
      = [.PubSubLatency "master" sampleEntry.PulsarURL sampleEntry.TopicName,
         .Alert (.pulsarError "//useast1.gcp.kafkaesque.io" (some ⟨"invalid service URL"⟩)),
         .PubSubLatency "master" westEntry.PulsarURL westEntry.TopicName] :=
  ⟨by decide,
   fun j producer consumer =>
     PubSubLatency.exchange_not_crashed (firstFailsEnvs j) producer consumer
       (firstFailsEnvs_receives_no_nil j),
   rfl,
   by decide,
   ((MeasureLatency_probes_every_entry twoEntryCfg firstFailsEnvs [] (by decide)).2.2
      (fun j producer consumer =>
        PubSubLatency.exchange_not_crashed (firstFailsEnvs j) producer consumer
          (firstFailsEnvs_receives_no_nil j))).1,
   ((MeasureLatency_probes_every_entry twoEntryCfg firstFailsEnvs [] (by decide)).2.2
      (fun j producer consumer =>
        PubSubLatency.exchange_not_crashed (firstFailsEnvs j) producer consumer
          (firstFailsEnvs_receives_no_nil j))).2.1,
   (((MeasureLatency_probes_every_entry twoEntryCfg firstFailsEnvs [] (by decide)).2.2
      (fun j producer consumer =>
        PubSubLatency.exchange_not_crashed (firstFailsEnvs j) producer consumer
          (firstFailsEnvs_receives_no_nil j))).2.2 [] sampleEntry [westEntry] rfl).2.2.2.2
      failedLatency (some ⟨"invalid service URL"⟩) (by decide) (by decide),
   by decide⟩

/-! ## C9: the returned duration and the outer timeout -/

/-- C9 as stated fails. `sentTime` is read at line 134, before `SendAsync`, and
the 15 s tick is armed only when the caller enters its `select`. Here the
caller enters the `select` 1 ms after line 134 and the echo is measured 0.5 ms
before the tick: the call returns 15.0005 s with a nil error. -/
theorem PubSubLatency_latency_above_timeout :
    (PubSubLatency sampleCfg slowEchoEnv [] "master" "pulsar://a:6650" "t").status
      = .returned 15000500000 none ∧
    ¬ ((15000500000 : Duration) < outerTimeout) := by
  decide

/-- C9, amended. When `PubSubLatency` returns a nil error, the returned
duration is strictly less than the 15 s outer timeout plus the time between the
reading of `sentTime` (line 134) and the caller entering its `select`
(line 148), the tick firing exactly 15 s after that. -/
theorem PubSubLatency_latency_bound (cfg : Configuration) (env : ProbeEnv)
    (clients : ClientMap) (tokenStr uri topicName : String) (d : Duration)
    (h : (PubSubLatency cfg env clients tokenStr uri topicName).status = .returned d none) :
    ∃ producer consumer, ∃ sentTime waitStart : Time,
      env.CreateProducer = .ok producer ∧ env.Subscribe = .ok consumer ∧
      (PubSubLatency.exchange env producer consumer).sentTime = some sentTime ∧
      (PubSubLatency.exchange env producer consumer).waitStart = some waitStart ∧
      sentTime ≤ waitStart ∧
      d < outerTimeout + ((waitStart : Int) - (sentTime : Int)) := by
  have probe : ∀ (cl : ClientMap) (eff : List Effect) (client : Client),
      (PubSubLatency.probe env cl eff client uri topicName).status = .returned d none →
      ∃ producer consumer, ∃ sentTime waitStart : Time,
        env.CreateProducer = .ok producer ∧ env.Subscribe = .ok consumer ∧
        (PubSubLatency.exchange env producer consumer).sentTime = some sentTime ∧
        (PubSubLatency.exchange env producer consumer).waitStart = some waitStart ∧
        sentTime ≤ waitStart ∧
        d < outerTimeout + ((waitStart : Int) - (sentTime : Int)) := by
    intro cl eff client hp
    unfold PubSubLatency.probe at hp
    cases hprod : env.CreateProducer with
    | error e =>
      rw [hprod] at hp
      simp at hp
    | ok producer =>
      rw [hprod] at hp
      cases hsub : env.Subscribe with
      | error e =>
        rw [hsub] at hp
        simp at hp
      | ok consumer =>
        rw [hsub] at hp
        simp only at hp
        split at hp
        · cases hp
        · simp only [Status.returned.injEq] at hp
          have hfin : (PubSubLatency.exchange env producer consumer).finish = (d, none) :=
            Prod.ext hp.1 hp.2
          rcases Exchange.finish_shape _ (PubSubLatency.exchange_inv env producer consumer)
              d none hfin with ⟨_, _, st, now, ws, h3, h4, h5, h6, h7, h8⟩ | ⟨h1, _⟩
          · refine ⟨producer, consumer, st, ws, rfl, rfl, h3, h4, h6, ?_⟩
            rw [h8]
            linarith
          · exact absurd rfl h1
  unfold PubSubLatency at h
  cases hget : clients.get uri with
  | some client =>
    rw [hget] at h
    exact probe _ _ _ h
  | none =>
    rw [hget] at h
    cases hnew : env.NewClient with
    | error e =>
      rw [hnew] at h
      simp at h
    | ok client =>
      rw [hnew] at h
      exact probe _ _ _ h

/-- C9, amended, at the slow echo: 15.0005 s is below 15 s plus the 1 ms that
passed before the caller entered its `select`. -/
theorem PubSubLatency_latency_bound_witness :
    (PubSubLatency sampleCfg slowEchoEnv [] "master" "pulsar://a:6650" "t").status
      = .returned 15000500000 none ∧
    ∃ producer consumer, ∃ sentTime waitStart : Time,
      slowEchoEnv.CreateProducer = .ok producer ∧ slowEchoEnv.Subscribe = .ok consumer ∧
      (PubSubLatency.exchange slowEchoEnv producer consumer).sentTime = some sentTime ∧
      (PubSubLatency.exchange slowEchoEnv producer consumer).waitStart = some waitStart ∧
      sentTime ≤ waitStart ∧
      (15000500000 : Duration) < outerTimeout + ((waitStart : Int) - (sentTime : Int)) :=
  ⟨by decide,
   PubSubLatency_latency_bound sampleCfg slowEchoEnv [] "master" "pulsar://a:6650" "t"
     15000500000 (by decide)⟩

/-! ## C10: a receive error in the receive task -/

/-- C10 (the code departs from the claim). When `consumer.Receive` returns the
nil message and an error, the loop body publishes the error and, having no
`continue`, goes on to line 108, where `msg.Payload()` dereferences the nil
message: the goroutine faults and the process is gone. With a non-nil message
beside the error, the body reads its payload and acknowledges it. -/
theorem receive_error_falls_through :
    Exchange.onReceive "measure-latency123" ⟨3⟩ (Exchange.init 0) none
        (some ⟨"connection closed"⟩)
      = { Exchange.init 0 with
          errorChan := [errors.New "consumer Receive() error: connection closed"],
          crashed := true } ∧
    (PubSubLatency sampleCfg receiveErrorEnv [] "master" "pulsar://a:6650" "t").status
      = .crashed ∧
    Exchange.onReceive "measure-latency123" ⟨3⟩ (Exchange.init 0) (some ⟨7, "other"⟩)
        (some ⟨"connection closed"⟩)
      = { Exchange.init 0 with
          errorChan := [errors.New "consumer Receive() error: connection closed"],
          effects := [.Ack ⟨3⟩ ⟨7, "other"⟩] } := by
  decide

/-! ## C11: a message with another payload -/

/-- C11. In the receive task, for a message received without error whose
payload differs from the probe payload, the loop body acknowledges the message
once and does nothing else: nothing is written to the completion channel or to
the error channel, and the goroutine is back at `consumer.Receive`. A value is
written to the completion channel only after a message whose payload equals the
probe payload has been received; in particular `PubSubLatency` returns a nil
error only when such a message was received. -/
theorem receive_task_skips_other_payloads (payloadStr : String) (producer : Producer)
    (consumer : Consumer) :
    (∀ (s : Exchange) (m : Message), m.payload ≠ payloadStr →
      Exchange.onReceive payloadStr consumer s (some m) none
        = { s with effects := s.effects ++ [.Ack consumer m] } ∧
      (Exchange.onReceive payloadStr consumer s (some m) none).effects.count
          (.Ack consumer m) = s.effects.count (.Ack consumer m) + 1 ∧
      (s.finished = false → s.recv = .atReceive →
        s.step payloadStr producer consumer (.receive (some m) none)
          = { s with effects := s.effects ++ [.Ack consumer m] } ∧
        (s.step payloadStr producer consumer (.receive (some m) none)).recv = .atReceive)) ∧
    (∀ (start : Time) (steps : List Step),
      (steps.foldl (Exchange.step payloadStr producer consumer)
        (Exchange.init start)).completionWritten →
      ∃ before m err after,
        steps = before ++ Step.receive (some m) err :: after ∧ m.payload = payloadStr ∧
        (before.foldl (Exchange.step payloadStr producer consumer)
          (Exchange.init start)).recv = .atReceive ∧
        (before.foldl (Exchange.step payloadStr producer consumer)
          (Exchange.init start)).finished = false) ∧
    (∀ (cfg : Configuration) (env : ProbeEnv) (clients : ClientMap)
        (tokenStr uri topicName : String) (d : Duration),
      (PubSubLatency cfg env clients tokenStr uri topicName).status = .returned d none →
      ∃ m err, Step.receive (some m) err ∈ env.schedule ∧
        m.payload = "measure-latency123" ++ env.unixDate) := by
  refine ⟨?_, ?_, ?_⟩
  · intro s m hm
    have hne : ¬ payloadStr = m.payload := fun h => hm h.symm
    have hbody : Exchange.onReceive payloadStr consumer s (some m) none
        = { s with effects := s.effects ++ [.Ack consumer m] } := by
      simp [Exchange.onReceive, Exchange.onMessage, hne]
    refine ⟨hbody, ?_, ?_⟩
    · rw [hbody]
      simp [List.count_append]
    · intro hfin hat
      have hstep : s.step payloadStr producer consumer (.receive (some m) none)
          = { s with effects := s.effects ++ [.Ack consumer m] } := by
        unfold Exchange.step
        rw [if_neg (by simp [hfin])]
        simp only
        split
        · exact hbody
        · rename_i hnot
          exact absurd hat (by intro h; exact hnot h)
      exact ⟨hstep, by rw [hstep]; exact hat⟩
  · intro start steps h
    exact Exchange.pastMatch_foldl payloadStr producer consumer start steps (Or.inr h)
  · intro cfg env clients tokenStr uri topicName d h
    exact PubSubLatency.match_received_of_nil_error cfg env clients tokenStr uri topicName d h

/-- C11 at a stale message before the exchange of `healthyEnv`: the message is
acknowledged and the goroutine receives again; the completion of the healthy
exchange follows the receipt of the probe message. -/
theorem receive_task_skips_other_payloads_witness :
    (staleMessage.payload ≠ "measure-latency123Mon Jan  2 15:04:05 UTC 2006" ∧
      (Exchange.init 0).finished = false ∧ (Exchange.init 0).recv = .atReceive ∧
      (Exchange.init 0).step "measure-latency123Mon Jan  2 15:04:05 UTC 2006" ⟨2⟩ ⟨3⟩
          (.receive (some staleMessage) none)
        = { Exchange.init 0 with effects := [.Ack ⟨3⟩ staleMessage] }) ∧
    ((PubSubLatency sampleCfg healthyEnv [] "master" "pulsar://a:6650" "t").status
        = .returned 1800000000 none ∧
      ∃ m err, Step.receive (some m) err ∈ healthyEnv.schedule ∧
        m.payload = "measure-latency123" ++ healthyEnv.unixDate) :=
  ⟨⟨by decide, by decide, by decide,
    (((receive_task_skips_other_payloads "measure-latency123Mon Jan  2 15:04:05 UTC 2006"
      ⟨2⟩ ⟨3⟩).1 (Exchange.init 0) staleMessage (by decide)).2.2 (by decide) (by decide)).1⟩,
   ⟨by decide,
    (receive_task_skips_other_payloads "measure-latency123Mon Jan  2 15:04:05 UTC 2006"
      ⟨2⟩ ⟨3⟩).2.2 sampleCfg healthyEnv [] "master" "pulsar://a:6650" "t" 1800000000
      (by decide)⟩⟩

end Monitor
